import Mathlib

/-!
# Project Aquarius: counter bank and multiplexed seven-segment display

A shallow embedding of `aquarius.c` (an AVR / Arduino sketch) and theorems about it.

* `int` is the 16-bit signed integer of the AVR target: values are kept in `Int` and
  every increment / multiplication / addition of the program goes through `wrapInt`.
* `byte` values and pin numbers are `Nat`.
* The output pins are a map `Nat → Level`; `digitalWrite` updates the map and every
  call of `digitalWrite` and `delay` is appended to the `trace` of the machine, so that
  "at every instant" can be stated over the prefixes of the operations of a run.
-/

namespace Aquarius

/-! ## Data model -/

/-- Electrical level of an output pin (`LOW` = 0, `HIGH` = 1). -/
inductive Level where
  | LOW
  | HIGH
deriving DecidableEq, Repr

open Level

/-- One call on the platform: `digitalWrite(pin, level)` or `delay(ms)`. -/
inductive Op where
  | write (pin : Nat) (level : Level)
  | delay (ms : Nat)
deriving DecidableEq, Repr

/-- Pin levels, by pin number. -/
abbrev Pins := Nat → Level

/-- State of the microcontroller as far as the program touches it: the counters `rc[0..3]`,
the timer register `TCNT2`, the output pins, the operations performed so far, and `stray`,
the bytes that a read `ssd[i][j]` outside the table would find in memory. -/
structure Machine where
  rc0 : Int
  rc1 : Int
  rc2 : Int
  rc3 : Int
  TCNT2 : Nat
  pins : Pins
  trace : List Op
  stray : Int → Int → Nat

/-- Value of a 16-bit signed `int` after an arithmetic result `x` (two's complement). -/
def wrapInt (x : Int) : Int := (x + 32768) % 65536 - 32768

/-- `#define INIT_TIMER_COUNT (256-125)` -/
def INIT_TIMER_COUNT : Nat := 256 - 125

/-- `byte ssd[10][7]`: the digits 0 to 9 with 7 segments. -/
def ssd : List (List Nat) :=
  [ [1,1,1,1,1,1,0],
    [0,1,1,0,0,0,0],
    [1,1,0,1,1,0,1],
    [1,1,1,1,0,0,1],
    [0,1,1,0,0,1,1],
    [1,0,1,1,0,1,1],
    [1,0,1,1,1,1,1],
    [1,1,1,0,0,0,0],
    [1,1,1,1,1,1,1],
    [1,1,1,1,0,1,1] ]

/-- `byte lcd_offset[]`: the select pins, closed by the sentinel 0. -/
def lcd_offset : List Nat :=
  [ 5, 4, 3, 2,
    25, 24, 23, 22,
    26, 27, 28, 29,
    0 ]

/-- `#define SEG_OFFSET 6` -/
def SEG_OFFSET : Nat := 6

/-- `#define SEG_DOT 13` -/
def SEG_DOT : Nat := 13

/-! ## Timer handler -/

/-- `rc[0]++` and the like: increment of an `int`. -/
def incr (x : Int) : Int := wrapInt (x + 1)

/-- `ISR(TIMER2_OVF_vect)`: re-arm the timer, count one tick, carry at 9999. -/
def ISR (m : Machine) : Machine :=
  -- RESET_TIMER2;
  let m := { m with TCNT2 := INIT_TIMER_COUNT }
  -- rc[0]++;
  let m := { m with rc0 := incr m.rc0 }
  -- if (rc[0] > 9999) { rc[0] = 0; rc[1]++; }
  let m := if m.rc0 > 9999 then { m with rc0 := 0, rc1 := incr m.rc1 } else m
  -- if (rc[1] > 9999) { rc[1] = 0; rc[2]++; }
  let m := if m.rc1 > 9999 then { m with rc1 := 0, rc2 := incr m.rc2 } else m
  -- if (rc[2] > 9999) { rc[2] = 0; rc[3]++; }
  let m := if m.rc2 > 9999 then { m with rc2 := 0, rc3 := incr m.rc3 } else m
  m

/-! ## Display scanner -/

/-- The platform's `digitalWrite(pin, level)`: the pin takes the level; the call is logged. -/
def digitalWrite (pin : Nat) (level : Level) (m : Machine) : Machine :=
  { m with
    pins := fun q => if q = pin then level else m.pins q
    trace := m.trace ++ [Op.write pin level] }

/-- The platform's `delay(ms)`: no pin changes; the call is logged. -/
def delay (ms : Nat) (m : Machine) : Machine :=
  { m with trace := m.trace ++ [Op.delay ms] }

/-- The loop of `lcd_select`, entered with index `i` and the table from entry `i` on:
`while (lcd_offset[i]) { digitalWrite(lcd_offset[i], (i == lcd) ? LOW : HIGH); i++; }`.
The empty table is a read past the sentinel, which the sentinel rules out. -/
def lcd_select_while (lcd : Int) : List Nat → Int → Machine → Machine
  | [], _, m => m
  | pin :: rest, i, m =>
    if pin ≠ 0 then
      lcd_select_while lcd rest (i + 1) (digitalWrite pin (if i = lcd then LOW else HIGH) m)
    else m

/-- `void lcd_select(int lcd)` -/
def lcd_select (lcd : Int) (m : Machine) : Machine :=
  lcd_select_while lcd lcd_offset 0 m

/-- `for (int j=0; j!=7; j++) digitalWrite(SEG_OFFSET+j, HIGH);` from `j` on, with `n = 7 - j`
passes to go. -/
def blank_for : Nat → Nat → Machine → Machine
  | 0, _, m => m
  | n + 1, j, m => blank_for n (j + 1) (digitalWrite (SEG_OFFSET + j) HIGH m)

/-- The read `ssd[i][j]`: the table entry inside the table, the byte found in memory outside. -/
def ssd_read (stray : Int → Int → Nat) (i j : Int) : Nat :=
  if 0 ≤ i ∧ i < 10 ∧ 0 ≤ j ∧ j < 7 then (ssd.getD i.toNat []).getD j.toNat 0 else stray i j

/-- `for (int j=0; j!=7; j++) { digitalWrite(SEG_OFFSET+j, ssd[i][j] ? LOW : HIGH); }` from `j`
on, with `n = 7 - j` passes to go. -/
def segment_for (i : Int) : Nat → Nat → Machine → Machine
  | 0, _, m => m
  | n + 1, j, m =>
    segment_for i n (j + 1)
      (digitalWrite (SEG_OFFSET + j) (if ssd_read m.stray i j ≠ 0 then LOW else HIGH) m)

/-- The outer loop of `lcd_write`, `for (int l=3; l>=0; l--) { ... }`, entered with `l = n - 1`
(so `n` passes to go) and the current `r`. -/
def lcd_write_for (block_nr : Int) : Nat → Int → Machine → Machine
  | 0, _, m => m
  | n + 1, r, m =>
    let l : Int := n
    -- first, all segments are turned off
    let m := blank_for 7 0 m
    -- lcd_select((block_nr*4) + l);
    let m := lcd_select (wrapInt (wrapInt (block_nr * 4) + l)) m
    -- i = r % 10; r /= 10;
    let i := Int.tmod r 10
    let r := Int.tdiv r 10
    -- set all correct segments
    let m := segment_for i 7 0 m
    -- digitalWrite(SEG_DOT, HIGH);
    let m := digitalWrite SEG_DOT HIGH m
    -- delay(1);
    let m := delay 1 m
    lcd_write_for block_nr n r m

/-- `void lcd_write(int block_nr, int r)` -/
def lcd_write (block_nr r : Int) (m : Machine) : Machine :=
  lcd_write_for block_nr 4 r m

/-- `void loop()`: one pass. -/
def loop (m : Machine) : Machine :=
  let m := lcd_write 0 m.rc0 m
  let m := lcd_write 1 m.rc1 m
  let m := lcd_write 2 m.rc2 m
  -- digitalWrite(37, (rc[1] % 2) ? HIGH : LOW);
  digitalWrite 37 (if Int.tmod m.rc1 2 ≠ 0 then HIGH else LOW) m

/-! ## Observing a run -/

/-- Effect of one operation on the pins. -/
def step (p : Pins) : Op → Pins
  | Op.write pin level => fun q => if q = pin then level else p q
  | Op.delay _ => p

/-- Pins after a sequence of operations. -/
def replay (p : Pins) : List Op → Pins
  | [] => p
  | op :: rest => replay (step p op) rest

/-- The operations performed between machine states `m` and `n`, `n` reached from `m`. -/
def performed (m n : Machine) : List Op := n.trace.drop m.trace.length

/-- Pins after the first `k` operations of `ops`, started from `p`. -/
def pinsAfter (p : Pins) (ops : List Op) (k : Nat) : Pins := replay p (ops.take k)

/-- The pin states held during the settle delays of `ops`, in order. -/
def atDelays (p : Pins) : List Op → List Pins
  | [] => []
  | Op.write pin level :: rest => atDelays (step p (Op.write pin level)) rest
  | Op.delay _ :: rest => p :: atDelays p rest

/-- The 12 select pins: the table up to the sentinel. -/
def select_pins : List Nat := lcd_offset.takeWhile (fun pin => pin ≠ 0)

/-- The levels of the 12 select pins, in table order. -/
def selectLevels (p : Pins) : List Level := select_pins.map p

/-- Number of select pins that are LOW (select-active). -/
def lowCount (p : Pins) : Nat := (selectLevels p).count LOW

/-- All 7 segment pins are HIGH (inactive). -/
def segsHigh (p : Pins) : Prop := ∀ j, j < 7 → p (SEG_OFFSET + j) = HIGH

/-- The levels of the 7 segment pins, segment A first. -/
def segLevels (p : Pins) : List Level := (List.range 7).map fun (j : Nat) => p (SEG_OFFSET + j)

/-- The levels the program drives the 7 segment pins to for table row `d`: LOW where the
row has a nonzero entry. -/
def pattern (d : Nat) : List Level :=
  (ssd.getD d []).map fun (b : Nat) => if b ≠ 0 then LOW else HIGH

/-- The digit on display: the first digit 0..9 whose pattern is on the segment pins. -/
def shownDigit (p : Pins) : Option Nat :=
  (List.range 10).find? fun (d : Nat) => decide (pattern d = segLevels p)

/-- The select pins that are LOW, in table order. -/
def selected (p : Pins) : List Nat := select_pins.filter fun (q : Nat) => decide (p q = LOW)

/-- The four select pins of block `b`: table entries `4b .. 4b+3`. -/
def blockPins (b : Nat) : List Nat := (lcd_offset.drop (4 * b)).take 4

/-- Pin `pin` is the lowest-numbered select pin of block `b`. -/
def lowestOf (b : Nat) (pin : Nat) : Prop := pin ∈ blockPins b ∧ ∀ q ∈ blockPins b, pin ≤ q

/-- Pin `pin` is the highest-numbered select pin of block `b`. -/
def highestOf (b : Nat) (pin : Nat) : Prop := pin ∈ blockPins b ∧ ∀ q ∈ blockPins b, q ≤ pin

instance (b pin : Nat) : Decidable (lowestOf b pin) := by unfold lowestOf; infer_instance

instance (b pin : Nat) : Decidable (highestOf b pin) := by unfold highestOf; infer_instance

/-- The levels the program drives the 7 segment pins to when it reads table row `i`. -/
def rowLevels (stray : Int → Int → Nat) (i : Int) : List Level :=
  (List.range 7).map fun (j : Nat) => if ssd_read stray i (j : Int) ≠ 0 then LOW else HIGH

/-- The pin states held during the settle delays of `lcd_write(block_nr, r)` run from `m`, in
order. -/
def held (block_nr r : Int) (m : Machine) : List Pins :=
  atDelays m.pins (performed m (lcd_write block_nr r m))

/-- What the scan keeps of "one position at a time": at most two select pins are LOW, and
more than one only while all 7 segment pins are HIGH. -/
def selectSafe (p : Pins) : Prop := lowCount p ≤ 2 ∧ (1 < lowCount p → segsHigh p)

/-- The counter bank holds `[a, b, c, d]`. -/
def bankIs (m : Machine) (a b c d : Int) : Prop :=
  m.rc0 = a ∧ m.rc1 = b ∧ m.rc2 = c ∧ m.rc3 = d

instance (m : Machine) (a b c d : Int) : Decidable (bankIs m a b c d) := by
  unfold bankIs; infer_instance

/-- The counters `rc[0]`, `rc[1]`, `rc[2]` read as one number in base 10000. -/
def shownValue (m : Machine) : Int := m.rc0 + 10 ^ 4 * m.rc1 + 10 ^ 8 * m.rc2

/-- A counter is within the four decimal digits of its block. -/
def inBlockRange (x : Int) : Prop := 0 ≤ x ∧ x ≤ 9999

instance (x : Int) : Decidable (inBlockRange x) := by unfold inBlockRange; infer_instance

/-- The state `setup()` leaves: counters zero, timer armed, nothing written yet (the output
pins at LOW, the level of a pin that has just been made an output). -/
def afterSetup : Machine :=
  { rc0 := 0, rc1 := 0, rc2 := 0, rc3 := 0, TCNT2 := INIT_TIMER_COUNT,
    pins := fun _ => LOW, trace := [], stray := fun _ _ => 0 }

/-- A machine with every pin HIGH (no position selected, no segment lit), otherwise as
`afterSetup`. -/
def idle : Machine := { afterSetup with pins := fun _ => HIGH }

/-- A machine with the counter bank `[a, b, c, d]`, otherwise as `afterSetup`. -/
def withBank (a b c d : Int) : Machine :=
  { afterSetup with rc0 := a, rc1 := b, rc2 := c, rc3 := d }

/-! ## Runs as operation lists (used by the proofs) -/

/-- The machine after the platform has performed `ops`. -/
def emit (ops : List Op) (m : Machine) : Machine :=
  { m with pins := replay m.pins ops, trace := m.trace ++ ops }

/-- The 7 blanking writes. -/
def blankOps : List Op :=
  (List.range 7).map fun (j : Nat) => Op.write (SEG_OFFSET + j) HIGH

/-- The 12 writes of `lcd_select(lcd)`. -/
def selectOps (lcd : Int) : List Op :=
  (List.range 12).map fun (i : Nat) =>
    Op.write (lcd_offset.getD i 0) (if (i : Int) = lcd then LOW else HIGH)

/-- The 7 segment writes for the table row `i`. -/
def segmentOps (stray : Int → Int → Nat) (i : Int) : List Op :=
  (List.range 7).map fun (j : Nat) =>
    Op.write (SEG_OFFSET + j) (if ssd_read stray i (j : Int) ≠ 0 then LOW else HIGH)

/-- One pass of the outer loop of `lcd_write`, at loop variable `l` and current value `r`. -/
def passOps (stray : Int → Int → Nat) (block_nr : Int) (l : Nat) (r : Int) : List Op :=
  blankOps ++ (selectOps (wrapInt (wrapInt (block_nr * 4) + (l : Int))) ++
    (segmentOps stray (Int.tmod r 10) ++ [Op.write SEG_DOT HIGH, Op.delay 1]))

/-- The passes of `lcd_write` from loop variable `n - 1` down to 0. -/
def writeOpsFrom (stray : Int → Int → Nat) (block_nr : Int) : Nat → Int → List Op
  | 0, _ => []
  | n + 1, r => passOps stray block_nr n r ++ writeOpsFrom stray block_nr n (Int.tdiv r 10)

/-- All operations of `lcd_write(block_nr, r)`. -/
def writeOps (stray : Int → Int → Nat) (block_nr r : Int) : List Op :=
  writeOpsFrom stray block_nr 4 r

/-- All operations of one `loop()` pass over the bank `[a, b, c, _]`. -/
def loopOps (stray : Int → Int → Nat) (a b c : Int) : List Op :=
  writeOps stray 0 a ++ (writeOps stray 1 b ++ (writeOps stray 2 c ++
    [Op.write 37 (if Int.tmod b 2 ≠ 0 then HIGH else LOW)]))

/-- Every operation of `ops` is performed in a pin state in which `Q` holds of it. -/
def Before (Q : Pins → Op → Prop) : Pins → List Op → Prop
  | _, [] => True
  | p, op :: rest => Q p op ∧ Before Q (step p op) rest

/-- The operation leaves the select pins alone. -/
def offSelect : Op → Prop
  | Op.write pin _ => pin ∉ select_pins
  | Op.delay _ => True

/-- The operation leaves the segment pins alone. -/
def offSegment : Op → Prop
  | Op.write pin _ => pin < SEG_OFFSET ∨ SEG_OFFSET + 7 ≤ pin
  | Op.delay _ => True

/-- A write to a select pin happens with all 7 segment pins HIGH, before and after it. -/
def blankedSelect (p : Pins) (op : Op) : Prop :=
  ¬ offSelect op → segsHigh p ∧ segsHigh (step p op)

/-- The levels `lcd_select(lcd)` gives the 12 select pins, in table order. -/
def selectTarget (lcd : Int) : List Level :=
  (List.range 12).map fun (i : Nat) => if (i : Int) = lcd then LOW else HIGH

/-- The operation leaves pin `q` alone. -/
def offPin (q : Nat) : Op → Prop
  | Op.write pin _ => pin ≠ q
  | Op.delay _ => True

/-- The pins written by a sequence of operations, in order. -/
def writtenPins : List Op → List Nat
  | [] => []
  | Op.write pin _ :: rest => pin :: writtenPins rest
  | Op.delay _ :: rest => writtenPins rest

/-- The settle delays requested by a sequence of operations, in milliseconds, in order. -/
def delaysOf : List Op → List Nat
  | [] => []
  | Op.write _ _ :: rest => delaysOf rest
  | Op.delay ms :: rest => ms :: delaysOf rest

/-- The table reads `ssd[i][j]` made by the passes of `lcd_write` from loop variable `n - 1`
down to 0 with current value `r`, as index pairs `(i, j)` in the order they are made:
`i = r % 10; r /= 10;` and then `ssd[i][j]` for `j = 0..6`. -/
def ssd_reads : Nat → Int → List (Int × Int)
  | 0, _ => []
  | n + 1, r =>
    (List.range 7).map (fun (j : Nat) => (Int.tmod r 10, (j : Int))) ++
      ssd_reads n (Int.tdiv r 10)

/-- The arguments `(block_nr*4) + l` of the `lcd_select` calls made by the passes of
`lcd_write` from loop variable `n - 1` down to 0, in order. -/
def select_args (block_nr : Int) : Nat → List Int
  | 0 => []
  | n + 1 => wrapInt (wrapInt (block_nr * 4) + (n : Int)) :: select_args block_nr n

/-- The operations of passes that select the positions `lcds` in turn and drive the segments
from the table reads `reads`, 7 reads a pass. -/
def accessOps (stray : Int → Int → Nat) : List Int → List (Int × Int) → List Op
  | [], _ => []
  | lcd :: lcds, reads =>
    (blankOps ++ (selectOps lcd ++
      ((reads.take 7).map (fun (ij : Int × Int) =>
          Op.write (SEG_OFFSET + ij.2.toNat) (if ssd_read stray ij.1 ij.2 ≠ 0 then LOW else HIGH))
        ++ [Op.write SEG_DOT HIGH, Op.delay 1]))) ++
      accessOps stray lcds (reads.drop 7)

/-! ## Timer handler: lemmas -/

theorem wrapInt_of_range {x : Int} (h1 : -32768 ≤ x) (h2 : x ≤ 32767) : wrapInt x = x := by
  unfold wrapInt; omega

theorem wrapInt_range (x : Int) : -32768 ≤ wrapInt x ∧ wrapInt x ≤ 32767 := by
  unfold wrapInt; omega

/-- One tick on a bank whose three displayed counters are in range, written out. -/
theorem ISR_rc (m : Machine) (h0 : 0 ≤ m.rc0 ∧ m.rc0 ≤ 9999) (h1 : 0 ≤ m.rc1 ∧ m.rc1 ≤ 9999)
    (h2 : 0 ≤ m.rc2 ∧ m.rc2 ≤ 9999) :
    (ISR m).rc0 = (if m.rc0 + 1 ≤ 9999 then m.rc0 + 1 else 0) ∧
    (ISR m).rc1 = (if m.rc0 + 1 ≤ 9999 then m.rc1 else if m.rc1 + 1 ≤ 9999 then m.rc1 + 1 else 0) ∧
    (ISR m).rc2 = (if m.rc0 + 1 ≤ 9999 ∨ m.rc1 + 1 ≤ 9999 then m.rc2
                    else if m.rc2 + 1 ≤ 9999 then m.rc2 + 1 else 0) ∧
    (ISR m).rc3 = (if m.rc0 + 1 ≤ 9999 ∨ m.rc1 + 1 ≤ 9999 ∨ m.rc2 + 1 ≤ 9999 then m.rc3
                    else incr m.rc3) := by
  obtain ⟨a0, a1⟩ := h0
  obtain ⟨b0, b1⟩ := h1
  obtain ⟨c0, c1⟩ := h2
  have ea : incr m.rc0 = m.rc0 + 1 := wrapInt_of_range (by omega) (by omega)
  have eb : incr m.rc1 = m.rc1 + 1 := wrapInt_of_range (by omega) (by omega)
  have ec : incr m.rc2 = m.rc2 + 1 := wrapInt_of_range (by omega) (by omega)
  simp only [ISR, ea]
  by_cases ha : m.rc0 + 1 ≤ 9999
  · have ha' : ¬ (m.rc0 + 1 > 9999) := by omega
    have hb' : ¬ (m.rc1 > 9999) := by omega
    have hc' : ¬ (m.rc2 > 9999) := by omega
    simp [ha, ha', hb', hc']
  · have ha' : m.rc0 + 1 > 9999 := by omega
    simp only [ha', if_true, eb, ha, if_false, false_or]
    by_cases hb : m.rc1 + 1 ≤ 9999
    · have hb' : ¬ (m.rc1 + 1 > 9999) := by omega
      have hc' : ¬ (m.rc2 > 9999) := by omega
      simp [hb, hb', hc']
    · have hb' : m.rc1 + 1 > 9999 := by omega
      simp only [hb', if_true, ec, hb, if_false, false_or]
      by_cases hc : m.rc2 + 1 ≤ 9999
      · have hc' : ¬ (m.rc2 + 1 > 9999) := by omega
        simp [hc, hc']
      · have hc' : m.rc2 + 1 > 9999 := by omega
        simp [hc, hc']

theorem incr_of_range {x : Int} (h1 : -32768 ≤ x) (h2 : x < 32767) : incr x = x + 1 :=
  wrapInt_of_range (by omega) (by omega)

/-- The displayed counters hold the base-10000 digits of `n`. -/
theorem ISR_counts (m : Machine) (n : Nat)
    (h0 : m.rc0 = ((n % 10000 : Nat) : Int))
    (h1 : m.rc1 = ((n / 10000 % 10000 : Nat) : Int))
    (h2 : m.rc2 = ((n / 100000000 % 10000 : Nat) : Int)) :
    (ISR m).rc0 = (((n + 1) % 10000 : Nat) : Int) ∧
    (ISR m).rc1 = (((n + 1) / 10000 % 10000 : Nat) : Int) ∧
    (ISR m).rc2 = (((n + 1) / 100000000 % 10000 : Nat) : Int) := by
  obtain ⟨e0, e1, e2, -⟩ := ISR_rc m (by omega) (by omega) (by omega)
  rw [e0, e1, e2, h0, h1, h2]
  refine ⟨?_, ?_, ?_⟩
  · split_ifs <;> omega
  · split_ifs <;> omega
  · split_ifs <;> omega

theorem ISR_iterate_counts (m : Machine) (hm : bankIs m 0 0 0 0) (k : Nat) :
    (ISR^[k] m).rc0 = ((k % 10000 : Nat) : Int) ∧
    (ISR^[k] m).rc1 = ((k / 10000 % 10000 : Nat) : Int) ∧
    (ISR^[k] m).rc2 = ((k / 100000000 % 10000 : Nat) : Int) := by
  induction k with
  | zero =>
    obtain ⟨a, b, c, -⟩ := hm
    simp [a, b, c]
  | succ n ih =>
    rw [Function.iterate_succ_apply']
    exact ISR_counts _ n ih.1 ih.2.1 ih.2.2

/-! ## Runs as operation lists: lemmas -/

theorem replay_append (p : Pins) (a b : List Op) :
    replay p (a ++ b) = replay (replay p a) b := by
  induction a generalizing p with
  | nil => rfl
  | cons op rest ih => exact ih (step p op)

theorem emit_emit (a b : List Op) (m : Machine) : emit b (emit a m) = emit (a ++ b) m := by
  simp [emit, replay_append, List.append_assoc]

theorem emit_nil (m : Machine) : emit [] m = m := by
  simp [emit, replay]

theorem emit_stray (ops : List Op) (m : Machine) : (emit ops m).stray = m.stray := rfl

theorem emit_rc (ops : List Op) (m : Machine) :
    (emit ops m).rc0 = m.rc0 ∧ (emit ops m).rc1 = m.rc1 ∧ (emit ops m).rc2 = m.rc2 ∧
    (emit ops m).rc3 = m.rc3 := ⟨rfl, rfl, rfl, rfl⟩

theorem emit_pins (ops : List Op) (m : Machine) : (emit ops m).pins = replay m.pins ops := rfl

theorem digitalWrite_eq_emit (pin : Nat) (level : Level) (m : Machine) :
    digitalWrite pin level m = emit [Op.write pin level] m := rfl

theorem delay_eq_emit (ms : Nat) (m : Machine) : delay ms m = emit [Op.delay ms] m := rfl

theorem performed_emit (ops : List Op) (m : Machine) : performed m (emit ops m) = ops := by
  simp [performed, emit]

theorem range_seven : List.range 7 = [0, 1, 2, 3, 4, 5, 6] := by decide

theorem range_twelve : List.range 12 = [0, 1, 2, 3, 4, 5, 6, 7, 8, 9, 10, 11] := by decide

theorem blank_for_eq_emit (m : Machine) : blank_for 7 0 m = emit blankOps m := by
  simp [blank_for, digitalWrite_eq_emit, emit_emit, blankOps, range_seven]

theorem lcd_select_eq_emit (lcd : Int) (m : Machine) :
    lcd_select lcd m = emit (selectOps lcd) m := by
  simp [lcd_select, lcd_select_while, lcd_offset, digitalWrite_eq_emit, emit_emit, selectOps,
    range_twelve]

theorem segment_for_eq_emit (i : Int) (m : Machine) :
    segment_for i 7 0 m = emit (segmentOps m.stray i) m := by
  simp [segment_for, digitalWrite_eq_emit, emit_emit, emit_stray, segmentOps, range_seven]

theorem lcd_write_for_eq_emit (block_nr : Int) (n : Nat) (r : Int) (m : Machine) :
    lcd_write_for block_nr n r m = emit (writeOpsFrom m.stray block_nr n r) m := by
  induction n generalizing r m with
  | zero => simp [lcd_write_for, writeOpsFrom, emit_nil]
  | succ n ih =>
    simp only [lcd_write_for, writeOpsFrom]
    rw [ih, blank_for_eq_emit, lcd_select_eq_emit, segment_for_eq_emit, digitalWrite_eq_emit,
      delay_eq_emit]
    simp [emit_emit, emit_stray, passOps]

theorem lcd_write_eq_emit (block_nr r : Int) (m : Machine) :
    lcd_write block_nr r m = emit (writeOps m.stray block_nr r) m :=
  lcd_write_for_eq_emit block_nr 4 r m

theorem loop_eq_emit (m : Machine) :
    loop m = emit (loopOps m.stray m.rc0 m.rc1 m.rc2) m := by
  simp [loop, lcd_write_eq_emit, digitalWrite_eq_emit, emit_emit, emit_stray, loopOps,
    (emit_rc _ _).1, (emit_rc _ _).2.1, (emit_rc _ _).2.2.1]

/-! ## Pin states along a run: lemmas -/

theorem select_pins_eq : select_pins = [5, 4, 3, 2, 25, 24, 23, 22, 26, 27, 28, 29] := by
  decide

theorem pinsAfter_append (P : Pins → Prop) (p : Pins) (a b : List Op)
    (ha : ∀ k, P (pinsAfter p a k)) (hb : ∀ k, P (pinsAfter (replay p a) b k)) :
    ∀ k, P (pinsAfter p (a ++ b) k) := by
  intro k
  unfold pinsAfter at *
  rw [List.take_append_eq_append_take, replay_append]
  by_cases hk : k ≤ a.length
  · have h0 : k - a.length = 0 := by omega
    rw [h0, List.take_zero]
    exact ha k
  · rw [List.take_of_length_le (by omega)]
    exact hb _

theorem pinsAfter_length (p : Pins) (ops : List Op) : pinsAfter p ops ops.length = replay p ops := by
  simp [pinsAfter]

theorem before_append (Q : Pins → Op → Prop) (p : Pins) (a b : List Op) :
    Before Q p (a ++ b) ↔ Before Q p a ∧ Before Q (replay p a) b := by
  induction a generalizing p with
  | nil => simp [Before, replay]
  | cons op rest ih => simp [Before, replay, ih, and_assoc]

theorem before_get (Q : Pins → Op → Prop) (p : Pins) (ops : List Op) (h : Before Q p ops)
    (k : Nat) (op : Op) (hk : ops.get? k = some op) : Q (pinsAfter p ops k) op := by
  induction ops generalizing p k with
  | nil => simp at hk
  | cons o rest ih =>
    cases k with
    | zero =>
      simp at hk
      subst hk
      exact h.1
    | succ k => exact ih (step p o) h.2 k (by simpa using hk)

theorem selectLevels_step_off (p : Pins) (op : Op) (h : offSelect op) :
    selectLevels (step p op) = selectLevels p := by
  cases op with
  | delay ms => rfl
  | write pin level =>
    unfold selectLevels
    apply List.map_congr_left
    intro q hq
    have hne : q ≠ pin := fun e => h (e ▸ hq)
    simp [step, hne]

theorem selectLevels_replay_off (p : Pins) (ops : List Op) (h : ∀ op ∈ ops, offSelect op) :
    selectLevels (replay p ops) = selectLevels p := by
  induction ops generalizing p with
  | nil => rfl
  | cons op rest ih =>
    rw [replay, ih _ (fun o ho => h o (List.mem_cons_of_mem _ ho)),
      selectLevels_step_off p op (h op (List.mem_cons_self _ _))]

theorem selectLevels_select_take (p : Pins) (lcd : Int) (k : Nat) (hk : k ≤ 12) :
    selectLevels (replay p ((selectOps lcd).take k)) =
      (selectTarget lcd).take k ++ (selectLevels p).drop k := by
  interval_cases k <;>
    simp [selectLevels, select_pins_eq, selectOps, selectTarget, range_twelve, lcd_offset,
      replay, step]

theorem selectTarget_count (lcd : Int) : (selectTarget lcd).count LOW ≤ 1 := by
  by_cases h : 0 ≤ lcd ∧ lcd < 12
  · obtain ⟨h0, h1⟩ := h
    interval_cases lcd <;> decide
  · have this : selectTarget lcd = List.replicate 12 HIGH := by
      simp only [selectTarget, range_twelve, List.map]
      simp [List.replicate]
      omega
    rw [this]
    decide

theorem segsHigh_step_off (p : Pins) (op : Op) (h : offSegment op) (hp : segsHigh p) :
    segsHigh (step p op) := by
  cases op with
  | delay ms => exact hp
  | write pin level =>
    intro j hj
    have hne : SEG_OFFSET + j ≠ pin := by
      simp only [offSegment] at h
      omega
    simp [step, hne, hp j hj]

theorem segsHigh_replay_off (p : Pins) (ops : List Op) (h : ∀ op ∈ ops, offSegment op)
    (hp : segsHigh p) : segsHigh (replay p ops) := by
  induction ops generalizing p with
  | nil => exact hp
  | cons op rest ih =>
    exact ih _ (fun o ho => h o (List.mem_cons_of_mem _ ho))
      (segsHigh_step_off p op (h op (List.mem_cons_self _ _)) hp)

theorem segsHigh_blank (p : Pins) : segsHigh (replay p blankOps) := by
  intro j hj
  interval_cases j <;> simp [blankOps, range_seven, replay, step, SEG_OFFSET]

theorem blankOps_off : ∀ op ∈ blankOps, offSelect op := by
  simp [blankOps, range_seven, offSelect, select_pins_eq, SEG_OFFSET]

theorem segmentOps_off (stray : Int → Int → Nat) (i : Int) :
    ∀ op ∈ segmentOps stray i ++ [Op.write SEG_DOT HIGH, Op.delay 1], offSelect op := by
  simp [segmentOps, range_seven, offSelect, select_pins_eq, SEG_OFFSET, SEG_DOT]

theorem selectOps_off (lcd : Int) : ∀ op ∈ selectOps lcd, offSegment op := by
  simp [selectOps, range_twelve, offSegment, lcd_offset, SEG_OFFSET]

theorem selectSafe_of_le {p : Pins} (h : lowCount p ≤ 1) : selectSafe p :=
  ⟨by omega, fun h2 => by omega⟩

theorem selectSafe_off (p : Pins) (ops : List Op) (h : ∀ op ∈ ops, offSelect op)
    (hp : lowCount p ≤ 1) : ∀ k, selectSafe (pinsAfter p ops k) := by
  intro k
  apply selectSafe_of_le
  unfold pinsAfter lowCount
  rw [selectLevels_replay_off p _ (fun o ho => h o (List.mem_of_mem_take ho))]
  exact hp

theorem lowCount_replay_off (p : Pins) (ops : List Op) (h : ∀ op ∈ ops, offSelect op) :
    lowCount (replay p ops) = lowCount p := by
  unfold lowCount
  rw [selectLevels_replay_off p ops h]

theorem lowCount_select_take (p : Pins) (lcd : Int) (k : Nat) (hp : lowCount p ≤ 1) :
    lowCount (replay p ((selectOps lcd).take k)) ≤ 2 := by
  have hlen : (selectOps lcd).length = 12 := by simp [selectOps]
  have key : ∀ j, j ≤ 12 → lowCount (replay p ((selectOps lcd).take j)) ≤ 2 := by
    intro j hj
    unfold lowCount at *
    rw [selectLevels_select_take p lcd j hj, List.count_append]
    have h1 := (List.take_sublist j (selectTarget lcd)).count_le LOW
    have h2 := (List.drop_sublist j (selectLevels p)).count_le LOW
    have h3 := selectTarget_count lcd
    omega
  by_cases hk : k ≤ 12
  · exact key k hk
  · rw [List.take_of_length_le (by omega), ← List.take_of_length_le (le_of_eq hlen)]
    exact key 12 le_rfl

theorem lowCount_select (p : Pins) (lcd : Int) : lowCount (replay p (selectOps lcd)) ≤ 1 := by
  have hlen : (selectOps lcd).length = 12 := by simp [selectOps]
  have h := selectLevels_select_take p lcd 12 le_rfl
  rw [List.take_of_length_le (le_of_eq hlen)] at h
  have hl : (selectLevels p).length = 12 := by simp [selectLevels, select_pins_eq]
  have ht : (selectTarget lcd).length = 12 := by
    simp only [selectTarget, List.length_map, List.length_range]
  rw [List.drop_of_length_le (le_of_eq hl), List.take_of_length_le (le_of_eq ht),
    List.append_nil] at h
  unfold lowCount
  rw [h]
  exact selectTarget_count lcd

theorem selectSafe_select (p : Pins) (lcd : Int) (hp : lowCount p ≤ 1) (hs : segsHigh p) :
    ∀ k, selectSafe (pinsAfter p (selectOps lcd) k) := by
  intro k
  refine ⟨lowCount_select_take p lcd k hp, fun _ => ?_⟩
  exact segsHigh_replay_off p _ (fun o ho => selectOps_off lcd o (List.mem_of_mem_take ho)) hs

theorem selectSafe_pass (stray : Int → Int → Nat) (block_nr : Int) (l : Nat) (r : Int)
    (p : Pins) (hp : lowCount p ≤ 1) :
    (∀ k, selectSafe (pinsAfter p (passOps stray block_nr l r) k)) ∧
    lowCount (replay p (passOps stray block_nr l r)) ≤ 1 := by
  have hb : lowCount (replay p blankOps) ≤ 1 := by
    rw [lowCount_replay_off p _ blankOps_off]; exact hp
  constructor
  · unfold passOps
    apply pinsAfter_append _ _ _ _ (selectSafe_off p _ blankOps_off hp)
    apply pinsAfter_append _ _ _ _ (selectSafe_select _ _ hb (segsHigh_blank p))
    exact selectSafe_off _ _ (segmentOps_off stray _) (lowCount_select _ _)
  · unfold passOps
    rw [replay_append, replay_append, lowCount_replay_off _ _ (segmentOps_off stray _)]
    exact lowCount_select _ _

theorem selectSafe_writeFrom (stray : Int → Int → Nat) (block_nr : Int) (n : Nat) (r : Int)
    (p : Pins) (hp : lowCount p ≤ 1) :
    (∀ k, selectSafe (pinsAfter p (writeOpsFrom stray block_nr n r) k)) ∧
    lowCount (replay p (writeOpsFrom stray block_nr n r)) ≤ 1 := by
  induction n generalizing r p with
  | zero =>
    refine ⟨fun k => ?_, hp⟩
    simpa [writeOpsFrom, pinsAfter, replay] using selectSafe_of_le hp
  | succ n ih =>
    obtain ⟨h1, h2⟩ := selectSafe_pass stray block_nr n r p hp
    obtain ⟨h3, h4⟩ := ih (Int.tdiv r 10) _ h2
    refine ⟨?_, ?_⟩
    · unfold writeOpsFrom
      exact pinsAfter_append _ _ _ _ h1 h3
    · unfold writeOpsFrom
      rw [replay_append]
      exact h4

theorem indicator_off (level : Level) : ∀ op ∈ [Op.write 37 level], offSelect op := by
  simp [offSelect, select_pins_eq]

theorem selectSafe_loop (stray : Int → Int → Nat) (a b c : Int) (p : Pins)
    (hp : lowCount p ≤ 1) :
    (∀ k, selectSafe (pinsAfter p (loopOps stray a b c) k)) ∧
    lowCount (replay p (loopOps stray a b c)) ≤ 1 := by
  obtain ⟨h1, h2⟩ := selectSafe_writeFrom stray 0 4 a p hp
  obtain ⟨h3, h4⟩ := selectSafe_writeFrom stray 1 4 b _ h2
  obtain ⟨h5, h6⟩ := selectSafe_writeFrom stray 2 4 c _ h4
  constructor
  · unfold loopOps writeOps
    apply pinsAfter_append _ _ _ _ h1
    apply pinsAfter_append _ _ _ _ h3
    apply pinsAfter_append _ _ _ _ h5
    exact selectSafe_off _ _ (indicator_off _) h6
  · unfold loopOps writeOps
    rw [replay_append, replay_append, replay_append, lowCount_replay_off _ _ (indicator_off _)]
    exact h6

/-! ## The display at the settle delays: lemmas -/

theorem step_delay (p : Pins) (ms : Nat) : step p (Op.delay ms) = p := rfl

theorem atDelays_nil (p : Pins) : atDelays p [] = [] := rfl

theorem selectLevels_select (p : Pins) (lcd : Int) :
    selectLevels (replay p (selectOps lcd)) = selectTarget lcd := by
  have hlen : (selectOps lcd).length = 12 := by simp [selectOps]
  have h := selectLevels_select_take p lcd 12 le_rfl
  rw [List.take_of_length_le (le_of_eq hlen)] at h
  have hl : (selectLevels p).length = 12 := by simp [selectLevels, select_pins_eq]
  have ht : (selectTarget lcd).length = 12 := by
    simp only [selectTarget, List.length_map, List.length_range]
  rw [List.drop_of_length_le (le_of_eq hl), List.take_of_length_le (le_of_eq ht),
    List.append_nil] at h
  exact h

theorem pass_select (stray : Int → Int → Nat) (block_nr : Int) (l : Nat) (r : Int) (p : Pins) :
    selectLevels (replay p (passOps stray block_nr l r)) =
      selectTarget (wrapInt (wrapInt (block_nr * 4) + (l : Int))) := by
  unfold passOps
  rw [replay_append, replay_append, selectLevels_replay_off _ _ (segmentOps_off stray _)]
  exact selectLevels_select _ _

theorem pass_segments (stray : Int → Int → Nat) (block_nr : Int) (l : Nat) (r : Int) (p : Pins)
    (j : Nat) (hj : j < 7) :
    replay p (passOps stray block_nr l r) (SEG_OFFSET + j) =
      if ssd_read stray (Int.tmod r 10) (j : Int) ≠ 0 then LOW else HIGH := by
  unfold passOps
  rw [replay_append, replay_append]
  interval_cases j <;> simp [segmentOps, range_seven, replay, step, SEG_OFFSET, SEG_DOT]

theorem pass_dot (stray : Int → Int → Nat) (block_nr : Int) (l : Nat) (r : Int) (p : Pins) :
    replay p (passOps stray block_nr l r) SEG_DOT = HIGH := by
  unfold passOps
  rw [replay_append, replay_append]
  simp [segmentOps, range_seven, replay, step, SEG_OFFSET, SEG_DOT]

theorem atDelays_pass (stray : Int → Int → Nat) (block_nr : Int) (l : Nat) (r : Int) (p : Pins)
    (rest : List Op) :
    atDelays p (passOps stray block_nr l r ++ rest) =
      replay p (passOps stray block_nr l r) ::
        atDelays (replay p (passOps stray block_nr l r)) rest := by
  simp [passOps, blankOps, selectOps, segmentOps, range_seven, range_twelve, atDelays, replay,
    step_delay]

theorem held_eq (block_nr r : Int) (m : Machine) :
    held block_nr r m =
      [ replay m.pins (passOps m.stray block_nr 3 r),
        replay (replay m.pins (passOps m.stray block_nr 3 r))
          (passOps m.stray block_nr 2 (Int.tdiv r 10)),
        replay (replay (replay m.pins (passOps m.stray block_nr 3 r))
          (passOps m.stray block_nr 2 (Int.tdiv r 10)))
          (passOps m.stray block_nr 1 (Int.tdiv (Int.tdiv r 10) 10)),
        replay (replay (replay (replay m.pins (passOps m.stray block_nr 3 r))
          (passOps m.stray block_nr 2 (Int.tdiv r 10)))
          (passOps m.stray block_nr 1 (Int.tdiv (Int.tdiv r 10) 10)))
          (passOps m.stray block_nr 0 (Int.tdiv (Int.tdiv (Int.tdiv r 10) 10) 10)) ] := by
  unfold held
  rw [lcd_write_eq_emit, performed_emit]
  simp only [writeOps, writeOpsFrom, atDelays_pass, atDelays_nil]

theorem digit_lt (x : Int) (hx : 0 ≤ x) : (x % 10).toNat < 10 ∧ Int.tmod x 10 = ((x % 10).toNat : Int) := by
  rw [Int.tmod_eq_emod hx (by decide)]
  omega

theorem tdiv_chain (v : Int) (hv : 0 ≤ v) :
    Int.tdiv v 10 = v / 10 ∧ Int.tdiv (Int.tdiv v 10) 10 = v / 100 ∧
    Int.tdiv (Int.tdiv (Int.tdiv v 10) 10) 10 = v / 1000 := by
  have h1 : Int.tdiv v 10 = v / 10 := Int.tdiv_eq_ediv hv (by decide)
  have h2 : Int.tdiv (v / 10) 10 = v / 10 / 10 := Int.tdiv_eq_ediv (by omega) (by decide)
  have h3 : Int.tdiv (v / 10 / 10) 10 = v / 10 / 10 / 10 :=
    Int.tdiv_eq_ediv (by omega) (by decide)
  rw [h1, h2, h3]
  refine ⟨rfl, ?_, ?_⟩ <;> omega

theorem row_level_iff (stray : Int → Int → Nat) (d j : Nat) (hd : d < 10) (hj : j < 7) :
    ((if ssd_read stray (d : Int) (j : Int) ≠ 0 then LOW else HIGH) = LOW ↔
      (ssd.getD d []).getD j 0 = 1) := by
  interval_cases d <;> interval_cases j <;> simp [ssd_read, ssd]

theorem row_pattern (stray : Int → Int → Nat) (d : Nat) (hd : d < 10) :
    (List.range 7).map (fun (j : Nat) =>
      if ssd_read stray (d : Int) (j : Int) ≠ 0 then LOW else HIGH) = pattern d := by
  interval_cases d <;> simp [range_seven, ssd_read, ssd, pattern]

theorem pass_segLevels (stray : Int → Int → Nat) (block_nr : Int) (l : Nat) (r : Int)
    (p : Pins) (hr : 0 ≤ r) :
    segLevels (replay p (passOps stray block_nr l r)) = pattern (r % 10).toNat := by
  obtain ⟨hd, he⟩ := digit_lt r hr
  rw [← row_pattern stray _ hd, ← he]
  unfold segLevels
  apply List.map_congr_left
  intro j hj
  exact pass_segments stray block_nr l r p j (by simpa using hj)

theorem pass_segment_iff (stray : Int → Int → Nat) (block_nr : Int) (l : Nat) (r : Int)
    (p : Pins) (hr : 0 ≤ r) (j : Nat) (hj : j < 7) :
    (replay p (passOps stray block_nr l r) (SEG_OFFSET + j) = LOW ↔
      (ssd.getD (r % 10).toNat []).getD j 0 = 1) := by
  obtain ⟨hd, he⟩ := digit_lt r hr
  rw [pass_segments stray block_nr l r p j hj, he]
  exact row_level_iff stray _ j hd hj

theorem shownDigit_pattern (p : Pins) (d : Nat) (hd : d < 10) (h : segLevels p = pattern d) :
    shownDigit p = some d := by
  unfold shownDigit
  rw [h]
  interval_cases d <;> decide

theorem pass_shownDigit (stray : Int → Int → Nat) (block_nr : Int) (l : Nat) (r : Int)
    (p : Pins) (hr : 0 ≤ r) :
    shownDigit (replay p (passOps stray block_nr l r)) = some (r % 10).toNat :=
  shownDigit_pattern _ _ (digit_lt r hr).1 (pass_segLevels stray block_nr l r p hr)

theorem selected_of_levels (p : Pins) (k : Nat) (hk : k < 12)
    (h : selectLevels p = selectTarget (k : Int)) : selected p = [lcd_offset.getD k 0] := by
  interval_cases k <;>
    simp [selectLevels, select_pins_eq, selectTarget, range_twelve] at h <;>
    simp [selected, select_pins_eq, List.filter, h, lcd_offset]

theorem select_index (b : Int) (l : Nat) (hb0 : 0 ≤ b) (hb2 : b ≤ 2) (hl : l ≤ 3) :
    wrapInt (wrapInt (b * 4) + (l : Int)) = ((4 * b.toNat + l : Nat) : Int) ∧
    4 * b.toNat + l < 12 := by
  unfold wrapInt
  omega

theorem pass_selected (stray : Int → Int → Nat) (b : Int) (l : Nat) (r : Int) (p : Pins)
    (hb0 : 0 ≤ b) (hb2 : b ≤ 2) (hl : l ≤ 3) :
    selected (replay p (passOps stray b l r)) = [lcd_offset.getD (4 * b.toNat + l) 0] := by
  obtain ⟨e, hlt⟩ := select_index b l hb0 hb2 hl
  apply selected_of_levels _ _ hlt
  rw [pass_select, e]

/-! ## Blanking before selection: lemmas -/

theorem pinsAfter_succ (p : Pins) (ops : List Op) (k : Nat) (op : Op)
    (hk : ops.get? k = some op) : pinsAfter p ops (k + 1) = step (pinsAfter p ops k) op := by
  induction ops generalizing p k with
  | nil => simp at hk
  | cons o rest ih =>
    cases k with
    | zero =>
      simp at hk
      subst hk
      simp [pinsAfter, replay]
    | succ k =>
      have h := ih (step p o) k (by simpa using hk)
      simpa [pinsAfter, replay] using h

theorem blanked_off (p : Pins) (ops : List Op) (h : ∀ op ∈ ops, offSelect op) :
    Before blankedSelect p ops := by
  induction ops generalizing p with
  | nil => trivial
  | cons op rest ih =>
    exact ⟨fun hn => absurd (h op (List.mem_cons_self _ _)) hn,
      ih _ (fun o ho => h o (List.mem_cons_of_mem _ ho))⟩

theorem blanked_offSegment (p : Pins) (ops : List Op) (h : ∀ op ∈ ops, offSegment op)
    (hp : segsHigh p) : Before blankedSelect p ops := by
  induction ops generalizing p with
  | nil => trivial
  | cons op rest ih =>
    have hs := segsHigh_step_off p op (h op (List.mem_cons_self _ _)) hp
    exact ⟨fun _ => ⟨hp, hs⟩, ih _ (fun o ho => h o (List.mem_cons_of_mem _ ho)) hs⟩

theorem blanked_pass (stray : Int → Int → Nat) (block_nr : Int) (l : Nat) (r : Int) (p : Pins) :
    Before blankedSelect p (passOps stray block_nr l r) := by
  unfold passOps
  rw [before_append, before_append]
  exact ⟨blanked_off p _ blankOps_off,
    blanked_offSegment _ _ (selectOps_off _) (segsHigh_blank p),
    blanked_off _ _ (segmentOps_off stray _)⟩

theorem blanked_writeFrom (stray : Int → Int → Nat) (block_nr : Int) (n : Nat) (r : Int)
    (p : Pins) : Before blankedSelect p (writeOpsFrom stray block_nr n r) := by
  induction n generalizing r p with
  | zero => trivial
  | succ n ih =>
    unfold writeOpsFrom
    rw [before_append]
    exact ⟨blanked_pass stray block_nr n r p, ih _ _⟩

theorem drop_pass (a rest : List Op) (h : a.length = 28) (k : Nat) :
    (a ++ rest).drop (28 + k) = rest.drop k := by
  rw [← h, List.drop_append]

theorem passOps_length (stray : Int → Int → Nat) (block_nr : Int) (l : Nat) (r : Int) :
    (passOps stray block_nr l r).length = 28 := by
  simp [passOps, blankOps, selectOps, segmentOps]

theorem writeOps_pass_head (stray : Int → Int → Nat) (block_nr r : Int) (n : Nat) (hn : n < 4) :
    ∃ r' rest, (writeOps stray block_nr r).drop (28 * n) =
      passOps stray block_nr (3 - n) r' ++ rest := by
  unfold writeOps
  simp only [writeOpsFrom]
  interval_cases n
  · exact ⟨r, _, rfl⟩
  · exact ⟨Int.tdiv r 10, _, drop_pass _ _ (passOps_length _ _ _ _) 0⟩
  · refine ⟨Int.tdiv (Int.tdiv r 10) 10,
      passOps stray block_nr 0 (Int.tdiv (Int.tdiv (Int.tdiv r 10) 10) 10) ++ [], ?_⟩
    rw [show 28 * 2 = 28 + (28 + 0) from rfl, drop_pass _ _ (passOps_length _ _ _ _),
      drop_pass _ _ (passOps_length _ _ _ _)]
    rfl
  · refine ⟨Int.tdiv (Int.tdiv (Int.tdiv r 10) 10) 10, [], ?_⟩
    rw [show 28 * 3 = 28 + (28 + (28 + 0)) from rfl, drop_pass _ _ (passOps_length _ _ _ _),
      drop_pass _ _ (passOps_length _ _ _ _), drop_pass _ _ (passOps_length _ _ _ _)]
    rfl

theorem pass_blank_get (stray : Int → Int → Nat) (block_nr : Int) (l : Nat) (r : Int)
    (rest : List Op) (j : Nat) (hj : j < 7) :
    (passOps stray block_nr l r ++ rest).get? j = some (Op.write (SEG_OFFSET + j) HIGH) := by
  interval_cases j <;> simp [passOps, blankOps, range_seven]

theorem pass_select_get (stray : Int → Int → Nat) (block_nr : Int) (l : Nat) (r : Int)
    (rest : List Op) (i : Nat) (hi : i < 12) :
    (passOps stray block_nr l r ++ rest).get? (7 + i) =
      some (Op.write (lcd_offset.getD i 0)
        (if (i : Int) = wrapInt (wrapInt (block_nr * 4) + (l : Int)) then LOW else HIGH)) := by
  interval_cases i <;> simp [passOps, blankOps, selectOps, range_seven, range_twelve]

/-! ## Timer handler: claims -/

/-- C1: for every tick count `k ≥ 1`, `k` runs of the timer handler on the counter bank
`[0,0,0,0]` give `rc[0] = k mod 10000`, `rc[1] = floor(k/10000) mod 10000` and
`rc[2] = floor(k/100000000) mod 10000`; in particular 10000 ticks give `rc[0] = 0`,
`rc[1] = 1`, `rc[2] = 0`, and one more tick gives `rc[0] = 1`. -/
theorem C1_cascading_decimal (m : Machine) (hm : bankIs m 0 0 0 0) (k : Nat) (hk : 1 ≤ k) :
    ((ISR^[k] m).rc0 = ((k % 10000 : Nat) : Int) ∧
      (ISR^[k] m).rc1 = ((k / 10000 % 10000 : Nat) : Int) ∧
      (ISR^[k] m).rc2 = ((k / 100000000 % 10000 : Nat) : Int)) ∧
    ((ISR^[10000] m).rc0 = 0 ∧ (ISR^[10000] m).rc1 = 1 ∧ (ISR^[10000] m).rc2 = 0) ∧
    (ISR (ISR^[10000] m)).rc0 = 1 := by
  have _ := hk
  refine ⟨ISR_iterate_counts m hm k, ?_, ?_⟩
  · obtain ⟨a, b, c⟩ := ISR_iterate_counts m hm 10000
    exact ⟨a.trans (by norm_num), b.trans (by norm_num), c.trans (by norm_num)⟩
  · have h := (ISR_iterate_counts m hm 10001).1
    rw [Function.iterate_succ_apply'] at h
    exact h.trans (by norm_num)

/-- C1, at `k = 10000` from the state `setup()` leaves. -/
theorem C1_cascading_decimal_witness :
    bankIs afterSetup 0 0 0 0 ∧ 1 ≤ 10000 ∧
    ((ISR^[10000] afterSetup).rc0 = ((10000 % 10000 : Nat) : Int) ∧
      (ISR^[10000] afterSetup).rc1 = ((10000 / 10000 % 10000 : Nat) : Int) ∧
      (ISR^[10000] afterSetup).rc2 = ((10000 / 100000000 % 10000 : Nat) : Int)) :=
  ⟨⟨rfl, rfl, rfl, rfl⟩, by decide,
    (C1_cascading_decimal afterSetup ⟨rfl, rfl, rfl, rfl⟩ 10000 (by decide)).1⟩

/-- C4, as stated, fails: from the bank `[9999, 9999, 9999, 9999]`, all four counters in
`[0, 9999]`, one tick carries into `rc[3]`, which becomes 10000. -/
theorem C4_counterexample :
    (inBlockRange (withBank 9999 9999 9999 9999).rc0 ∧
      inBlockRange (withBank 9999 9999 9999 9999).rc1 ∧
      inBlockRange (withBank 9999 9999 9999 9999).rc2 ∧
      inBlockRange (withBank 9999 9999 9999 9999).rc3) ∧
    (ISR (withBank 9999 9999 9999 9999)).rc3 = 10000 ∧
    ¬ inBlockRange (ISR (withBank 9999 9999 9999 9999)).rc3 := by
  refine ⟨by decide, by decide, by decide⟩

/-- C4, amended: the three displayed counters `rc[0]`, `rc[1]`, `rc[2]` are invariant-bounded
to `[0, 9999]` (whatever `rc[3]` holds); `rc[3]` is not reset at 9999 and stays an `int`. -/
theorem C4_displayed_counters_bounded (m : Machine)
    (h0 : inBlockRange m.rc0) (h1 : inBlockRange m.rc1) (h2 : inBlockRange m.rc2)
    (h3 : -32768 ≤ m.rc3 ∧ m.rc3 ≤ 32767) :
    inBlockRange (ISR m).rc0 ∧ inBlockRange (ISR m).rc1 ∧ inBlockRange (ISR m).rc2 ∧
    (-32768 ≤ (ISR m).rc3 ∧ (ISR m).rc3 ≤ 32767) := by
  obtain ⟨e0, e1, e2, e3⟩ := ISR_rc m h0 h1 h2
  unfold inBlockRange at *
  rw [e0, e1, e2, e3]
  have hw := wrapInt_range (m.rc3 + 1)
  unfold incr
  refine ⟨?_, ?_, ?_, ?_⟩ <;> split_ifs <;> omega

/-- C4 amended, at the bank `[9999, 9999, 9999, 9999]`. -/
theorem C4_displayed_counters_bounded_witness :
    (inBlockRange (withBank 9999 9999 9999 9999).rc0 ∧
      inBlockRange (withBank 9999 9999 9999 9999).rc1 ∧
      inBlockRange (withBank 9999 9999 9999 9999).rc2) ∧
    (inBlockRange (ISR (withBank 9999 9999 9999 9999)).rc0 ∧
      inBlockRange (ISR (withBank 9999 9999 9999 9999)).rc1 ∧
      inBlockRange (ISR (withBank 9999 9999 9999 9999)).rc2 ∧
      (-32768 ≤ (ISR (withBank 9999 9999 9999 9999)).rc3 ∧
        (ISR (withBank 9999 9999 9999 9999)).rc3 ≤ 32767)) :=
  ⟨by decide,
    C4_displayed_counters_bounded (withBank 9999 9999 9999 9999)
      (by decide) (by decide) (by decide) (by decide)⟩

/-- C5, as stated, fails at the largest `int`: from the bank `[9999, 9999, 9999, 32767]` the
sum `rc[0] + 10^4*rc[1] + 10^8*rc[2]` wraps to 0 and `rc[3]++` overflows the 16-bit `int` of
the AVR target, so `rc[3]` does not become `rc[3] + 1 = 32768` (it wraps to -32768). -/
theorem C5_counterexample :
    (inBlockRange (withBank 9999 9999 9999 32767).rc0 ∧
      inBlockRange (withBank 9999 9999 9999 32767).rc1 ∧
      inBlockRange (withBank 9999 9999 9999 32767).rc2) ∧
    shownValue (ISR (withBank 9999 9999 9999 32767)) = 0 ∧
    (ISR (withBank 9999 9999 9999 32767)).rc3 = -32768 ∧
    (ISR (withBank 9999 9999 9999 32767)).rc3 ≠ (withBank 9999 9999 9999 32767).rc3 + 1 := by
  decide

/-- C5, amended: one tick is a base-10000 increment with carry. For every counter bank with
`rc[0]`, `rc[1]`, `rc[2]` in `[0, 9999]`: `rc[0]` becomes `rc[0]+1` if that is at most 9999 and
0 otherwise; counter `i+1` is incremented exactly when counter `i` was reset to 0 by this
tick and is otherwise unchanged (`rc[1]`, `rc[2]` being reset to 0 when their increment
exceeds 9999); hence `rc[0] + 10^4*rc[1] + 10^8*rc[2]` increases by exactly 1 modulo `10^12`,
and `rc[3]` is incremented exactly when that sum wraps to 0. The increment of `rc[3]` is that
of a 16-bit `int`: `rc[3] + 1` for every `rc[3]` below 32767, and a wrap to -32768 at 32767,
which the handler does not guard against. -/
theorem C5_tick_increment_with_carry (m : Machine)
    (h0 : inBlockRange m.rc0) (h1 : inBlockRange m.rc1) (h2 : inBlockRange m.rc2) :
    (ISR m).rc0 = (if m.rc0 + 1 ≤ 9999 then m.rc0 + 1 else 0) ∧
    (ISR m).rc1 = (if m.rc0 + 1 ≤ 9999 then m.rc1
                    else if m.rc1 + 1 ≤ 9999 then m.rc1 + 1 else 0) ∧
    (ISR m).rc2 = (if m.rc0 + 1 ≤ 9999 ∨ m.rc1 + 1 ≤ 9999 then m.rc2
                    else if m.rc2 + 1 ≤ 9999 then m.rc2 + 1 else 0) ∧
    (ISR m).rc3 = (if m.rc0 + 1 ≤ 9999 ∨ m.rc1 + 1 ≤ 9999 ∨ m.rc2 + 1 ≤ 9999 then m.rc3
                    else incr m.rc3) ∧
    shownValue (ISR m) = (shownValue m + 1) % 10 ^ 12 ∧
    (ISR m).rc3 = (if shownValue (ISR m) = 0 then incr m.rc3 else m.rc3) ∧
    (-32768 ≤ m.rc3 → m.rc3 < 32767 → incr m.rc3 = m.rc3 + 1) ∧
    (m.rc3 = 32767 → incr m.rc3 = -32768) := by
  obtain ⟨e0, e1, e2, e3⟩ := ISR_rc m h0 h1 h2
  unfold inBlockRange at h0 h1 h2
  have hs : shownValue (ISR m) = (shownValue m + 1) % 10 ^ 12 := by
    unfold shownValue
    rw [e0, e1, e2]
    norm_num
    split_ifs <;> omega
  refine ⟨e0, e1, e2, e3, hs, ?_, fun a b => incr_of_range a b, fun a => by rw [a]; decide⟩
  rw [e3]
  have hz : shownValue (ISR m) = 0 ↔
      ¬ (m.rc0 + 1 ≤ 9999 ∨ m.rc1 + 1 ≤ 9999 ∨ m.rc2 + 1 ≤ 9999) := by
    unfold shownValue
    rw [e0, e1, e2]
    norm_num
    split_ifs <;> omega
  by_cases hc : m.rc0 + 1 ≤ 9999 ∨ m.rc1 + 1 ≤ 9999 ∨ m.rc2 + 1 ≤ 9999
  · rw [if_pos hc, if_neg (fun h => (hz.mp h) hc)]
  · rw [if_neg hc, if_pos (hz.mpr hc)]

/-- C5 amended, at the bank `[9999, 9999, 41, 7]`: the carry runs through `rc[0]` and `rc[1]`
and stops at `rc[2]`. -/
theorem C5_tick_increment_with_carry_witness :
    (inBlockRange (withBank 9999 9999 41 7).rc0 ∧ inBlockRange (withBank 9999 9999 41 7).rc1 ∧
      inBlockRange (withBank 9999 9999 41 7).rc2) ∧
    bankIs (ISR (withBank 9999 9999 41 7)) 0 0 42 7 ∧
    shownValue (ISR (withBank 9999 9999 41 7)) =
      (shownValue (withBank 9999 9999 41 7) + 1) % 10 ^ 12 :=
  ⟨by decide, by decide,
    (C5_tick_increment_with_carry (withBank 9999 9999 41 7)
      (by decide) (by decide) (by decide)).2.2.2.2.1⟩

/-! ## Display scanner: claims -/

set_option maxRecDepth 100000 in
/-- C2, as stated, fails: started with every pin HIGH, `lcd_write(0, 0)` has two select pins
LOW after its 38th operation. In its second pass `lcd_select(2)` has then written pin 3
(table index 2) LOW and has not yet reached pin 2 (table index 3), which the first pass left
LOW. -/
theorem C2_counterexample :
    lowCount idle.pins ≤ 1 ∧
    (performed idle (lcd_write 0 0 idle)).get? 37 = some (Op.write 3 LOW) ∧
    pinsAfter idle.pins (performed idle (lcd_write 0 0 idle)) 38 3 = LOW ∧
    pinsAfter idle.pins (performed idle (lcd_write 0 0 idle)) 38 2 = LOW ∧
    ¬ lowCount (pinsAfter idle.pins (performed idle (lcd_write 0 0 idle)) 38) ≤ 1 := by
  decide

/-- C2, amended: started from any pin state in which at most one of the 12 select pins is
LOW, after every single operation of `lcd_write(block, value)`, for every block, and of a
whole `loop()` pass, at most two select pins are LOW, and more than one is LOW only while all
7 segment pins are HIGH; when `lcd_write` or the pass has returned at most one is LOW. -/
theorem C2_select_safe (m : Machine) (h : lowCount m.pins ≤ 1) :
    (∀ block value : Int,
      (∀ k, selectSafe (pinsAfter m.pins (performed m (lcd_write block value m)) k)) ∧
      lowCount (lcd_write block value m).pins ≤ 1) ∧
    ((∀ k, selectSafe (pinsAfter m.pins (performed m (loop m)) k)) ∧
      lowCount (loop m).pins ≤ 1) := by
  constructor
  · intro block value
    rw [lcd_write_eq_emit, performed_emit, emit_pins]
    exact selectSafe_writeFrom m.stray block 4 value m.pins h
  · rw [loop_eq_emit, performed_emit, emit_pins]
    exact selectSafe_loop m.stray m.rc0 m.rc1 m.rc2 m.pins h

/-- C2 amended, from the machine with every pin HIGH: the instant of the counterexample. -/
theorem C2_select_safe_witness :
    lowCount idle.pins ≤ 1 ∧
    selectSafe (pinsAfter idle.pins (performed idle (lcd_write 0 0 idle)) 38) :=
  ⟨by decide, ((C2_select_safe idle (by decide)).1 0 0).1 38⟩

/-- C6: for every index in 0..11 and every prior pin state, after `lcd_select(index)` the
select pin `lcd_offset[index]` is LOW and each of the other 11 select pins `lcd_offset[i]`,
`i ≠ index`, is HIGH. -/
theorem C6_select_exactly_one (index : Int) (h0 : 0 ≤ index) (h1 : index ≤ 11) (m : Machine) :
    (lcd_select index m).pins (lcd_offset.getD index.toNat 0) = LOW ∧
    ∀ i : Nat, i < 12 → (i : Int) ≠ index →
      (lcd_select index m).pins (lcd_offset.getD i 0) = HIGH := by
  rw [lcd_select_eq_emit, emit_pins]
  constructor
  · interval_cases index <;> simp [selectOps, range_twelve, lcd_offset, replay, step]
  · intro i hi hne
    interval_cases i <;>
      simp [selectOps, range_twelve, lcd_offset, replay, step] <;> omega

/-- C6, at index 6 from the state `setup()` leaves (all pins LOW): pin 23 is LOW, pin 5 is
HIGH. -/
theorem C6_select_exactly_one_witness :
    (0 : Int) ≤ 6 ∧ (6 : Int) ≤ 11 ∧
    (lcd_select 6 afterSetup).pins (lcd_offset.getD (6 : Int).toNat 0) = LOW ∧
    (lcd_select 6 afterSetup).pins (lcd_offset.getD 0 0) = HIGH :=
  ⟨by decide, by decide, (C6_select_exactly_one 6 (by decide) (by decide) afterSetup).1,
    (C6_select_exactly_one 6 (by decide) (by decide) afterSetup).2 0 (by decide) (by decide)⟩

theorem held_digits (block v : Int) (h0 : 0 ≤ v) (m : Machine) :
    (held block v m).map shownDigit =
      [some (v % 10).toNat, some (v / 10 % 10).toNat, some (v / 100 % 10).toNat,
        some (v / 1000 % 10).toNat] := by
  obtain ⟨e1, e2, e3⟩ := tdiv_chain v h0
  rw [held_eq, e3, e2, e1]
  simp only [List.map]
  rw [pass_shownDigit _ _ _ _ _ h0, pass_shownDigit _ _ _ _ _ (by omega : (0 : Int) ≤ v / 10),
    pass_shownDigit _ _ _ _ _ (by omega : (0 : Int) ≤ v / 100),
    pass_shownDigit _ _ _ _ _ (by omega : (0 : Int) ≤ v / 1000)]

/-- C7: for every value `v` in 0..9999, `lcd_write(block, v)` renders exactly four digits,
least significant first: the digits on display at its four settle delays are `v mod 10`,
`(v/10) mod 10`, `(v/100) mod 10`, `(v/1000) mod 10` (leading zeros rendered), and these
satisfy `d0 + 10*d1 + 100*d2 + 1000*d3 = v`; for `v = 42` they are 2, 4, 0, 0. -/
theorem C7_four_digits (block v : Int) (h0 : 0 ≤ v) (h1 : v ≤ 9999) (m : Machine) :
    (held block v m).map shownDigit =
      [some (v % 10).toNat, some (v / 10 % 10).toNat, some (v / 100 % 10).toNat,
        some (v / 1000 % 10).toNat] ∧
    v % 10 + 10 * (v / 10 % 10) + 100 * (v / 100 % 10) + 1000 * (v / 1000 % 10) = v ∧
    (held block 42 m).map shownDigit = [some 2, some 4, some 0, some 0] := by
  refine ⟨held_digits block v h0 m, by omega, ?_⟩
  rw [held_digits block 42 (by decide) m]
  decide

/-- C7, for `lcd_write(1, 9075)` from the state `setup()` leaves. -/
theorem C7_four_digits_witness :
    (0 : Int) ≤ 9075 ∧ (9075 : Int) ≤ 9999 ∧
    (held 1 9075 afterSetup).map shownDigit =
      [some ((9075 : Int) % 10).toNat, some ((9075 : Int) / 10 % 10).toNat,
        some ((9075 : Int) / 100 % 10).toNat, some ((9075 : Int) / 1000 % 10).toNat] :=
  ⟨by decide, by decide, (C7_four_digits 1 9075 (by decide) (by decide) afterSetup).1⟩

/-- C9: segment polarity is active-low and the held display state is exact. For every block
`b` in 0..2, value `v` in 0..9999, position step `l` in {3,2,1,0} and every pin state before
the call, at the settle delay of step `l` inside `lcd_write(b, v)` (the delay number `3 - l`,
counted from 0) segment pin `SEG_OFFSET+j` (`j = 0..6`) is LOW if and only if `ssd[d][j] = 1`
where `d` is the decimal digit `(v / 10^(3-l)) mod 10`, the dot pin `SEG_DOT` is HIGH, and
the only select pin that is LOW is `lcd_offset[4*b + l]`. -/
theorem C9_held_state (b v : Int) (hb0 : 0 ≤ b) (hb2 : b ≤ 2) (hv0 : 0 ≤ v) (hv1 : v ≤ 9999)
    (l : Nat) (hl : l ≤ 3) (m : Machine) :
    ∃ p, (held b v m).get? (3 - l) = some p ∧
      (∀ j, j < 7 →
        (p (SEG_OFFSET + j) = LOW ↔ (ssd.getD (v / 10 ^ (3 - l) % 10).toNat []).getD j 0 = 1)) ∧
      p SEG_DOT = HIGH ∧
      selected p = [lcd_offset.getD (4 * b.toNat + l) 0] := by
  have _ := hv1
  obtain ⟨e1, e2, e3⟩ := tdiv_chain v hv0
  rw [held_eq, e3, e2, e1]
  interval_cases l
  · refine ⟨_, rfl, fun j hj => ?_, pass_dot _ _ _ _ _, pass_selected _ _ _ _ _ hb0 hb2 (by omega)⟩
    exact pass_segment_iff _ _ _ _ _ (by omega) j hj
  · refine ⟨_, rfl, fun j hj => ?_, pass_dot _ _ _ _ _, pass_selected _ _ _ _ _ hb0 hb2 (by omega)⟩
    exact pass_segment_iff _ _ _ _ _ (by omega) j hj
  · refine ⟨_, rfl, fun j hj => ?_, pass_dot _ _ _ _ _, pass_selected _ _ _ _ _ hb0 hb2 (by omega)⟩
    exact pass_segment_iff _ _ _ _ _ (by omega) j hj
  · refine ⟨_, rfl, fun j hj => ?_, pass_dot _ _ _ _ _, pass_selected _ _ _ _ _ hb0 hb2 (by omega)⟩
    have h := pass_segment_iff m.stray b 3 v m.pins hv0 j hj
    simpa using h

/-- C9, for block 2, value 1234 and step `l = 3` from the state `setup()` leaves. -/
theorem C9_held_state_witness :
    (0 : Int) ≤ 2 ∧ (2 : Int) ≤ 2 ∧ (0 : Int) ≤ 1234 ∧ (1234 : Int) ≤ 9999 ∧ 3 ≤ 3 ∧
    ∃ p, (held 2 1234 afterSetup).get? (3 - 3) = some p ∧
      (∀ j, j < 7 →
        (p (SEG_OFFSET + j) = LOW ↔
          (ssd.getD ((1234 : Int) / 10 ^ (3 - 3) % 10).toNat []).getD j 0 = 1)) ∧
      p SEG_DOT = HIGH ∧
      selected p = [lcd_offset.getD (4 * (2 : Int).toNat + 3) 0] :=
  ⟨by decide, by decide, by decide, by decide, by decide,
    C9_held_state 2 1234 (by decide) (by decide) (by decide) (by decide) 3 (by decide)
      afterSetup⟩

theorem pass_rowLevels (stray : Int → Int → Nat) (block_nr : Int) (l : Nat) (r : Int)
    (p : Pins) :
    segLevels (replay p (passOps stray block_nr l r)) = rowLevels stray (Int.tmod r 10) := by
  unfold segLevels rowLevels
  apply List.map_congr_left
  intro j hj
  exact pass_segments stray block_nr l r p j (by simpa using hj)

set_option maxRecDepth 100000 in
/-- C8, as stated, fails for block 2: `lcd_write(2, 1234)` shows the ones digit 4 while pin
29 is the selected pin, and 29 is the highest, not the lowest, of the select pins 26..29 of
block 2; the thousands digit 1 is shown on pin 26, the lowest. -/
theorem C8_counterexample :
    (held 2 1234 idle).map (fun p => (shownDigit p, selected p)) =
      [(some 4, [29]), (some 3, [28]), (some 2, [27]), (some 1, [26])] ∧
    blockPins 2 = [26, 27, 28, 29] ∧
    ¬ lowestOf 2 29 ∧ ¬ highestOf 2 26 := by
  decide

/-- C8, amended: for every displayed block `b` in {0, 1, 2} and every value,
`lcd_write(b, value)` shows the digit it extracts first (table row `value % 10`, the ones
digit) on the position whose select pin is the table entry `lcd_offset[4b+3]`, and the digit
it extracts last (row `value / 1000 % 10`, the thousands digit) on the position whose select
pin is `lcd_offset[4b]`; for values from 0 on these rows are the patterns of the decimal
digits. For blocks 0 and 1 `lcd_offset[4b+3]` is the lowest and `lcd_offset[4b]` the highest
of the block's four select pins (for 1234 in block 0: 4 on pin 2, 1 on pin 5). -/
theorem C8_digit_positions (b value : Int) (hb0 : 0 ≤ b) (hb2 : b ≤ 2) (m : Machine) :
    (∃ first last, (held b value m).head? = some first ∧ (held b value m).getLast? = some last ∧
      segLevels first = rowLevels m.stray (Int.tmod value 10) ∧
      selected first = [lcd_offset.getD (4 * b.toNat + 3) 0] ∧
      segLevels last =
        rowLevels m.stray (Int.tmod (Int.tdiv (Int.tdiv (Int.tdiv value 10) 10) 10) 10) ∧
      selected last = [lcd_offset.getD (4 * b.toNat) 0] ∧
      (0 ≤ value → shownDigit first = some (value % 10).toNat ∧
        shownDigit last = some (value / 1000 % 10).toNat)) ∧
    (b ≤ 1 → lowestOf b.toNat (lcd_offset.getD (4 * b.toNat + 3) 0) ∧
      highestOf b.toNat (lcd_offset.getD (4 * b.toNat) 0)) := by
  refine ⟨?_, ?_⟩
  · rw [held_eq]
    refine ⟨_, _, rfl, rfl, pass_rowLevels _ _ _ _ _, pass_selected _ _ _ _ _ hb0 hb2 (by omega),
      pass_rowLevels _ _ _ _ _, ?_, fun hv => ?_⟩
    · simpa using pass_selected m.stray b 0 _ _ hb0 hb2 (by omega)
    · obtain ⟨-, -, e3⟩ := tdiv_chain value hv
      refine ⟨pass_shownDigit _ _ _ _ _ hv, ?_⟩
      rw [e3]
      exact pass_shownDigit _ _ _ _ _ (by omega)
  · intro hb1
    interval_cases b <;> decide

/-- C8 amended, for `lcd_write(0, 1234)` from the state `setup()` leaves. -/
theorem C8_digit_positions_witness :
    (0 : Int) ≤ 0 ∧ (0 : Int) ≤ 2 ∧
    lowestOf (0 : Int).toNat (lcd_offset.getD (4 * (0 : Int).toNat + 3) 0) ∧
    highestOf (0 : Int).toNat (lcd_offset.getD (4 * (0 : Int).toNat) 0) :=
  ⟨by decide, by decide,
    (C8_digit_positions 0 1234 (by decide) (by decide) afterSetup).2 (by decide)⟩

theorem held_segLevels (b v : Int) (m : Machine) (hv : 0 ≤ v) (k : Nat) (hk : k < 4) :
    ((held b v m).get? k).map segLevels = some (pattern (v / 10 ^ k % 10).toNat) := by
  obtain ⟨e1, e2, e3⟩ := tdiv_chain v hv
  rw [held_eq, e3, e2, e1]
  interval_cases k
  · simpa using pass_segLevels m.stray b 3 v m.pins hv
  · simpa using pass_segLevels m.stray b 2 (v / 10) _ (by omega)
  · simpa using pass_segLevels m.stray b 1 (v / 100) _ (by omega)
  · simpa using pass_segLevels m.stray b 0 (v / 1000) _ (by omega)

/-- C10: the segment encoding table maps digit 0 to `{1,1,1,1,1,1,0}`, digit 8 to
`{1,1,1,1,1,1,1}` and digit 1 to `{0,1,1,0,0,0,0}`, and the pattern rendered for a digit
depends only on the digit: whatever the blocks, the positions `k`, `k'` (settle delays,
counted from 0), the values (in 0..9999) and the machine states, the segment levels held for
the digit `(v / 10^k) mod 10` are `pattern` of that digit, and two renders of equal digits
hold equal segment levels. -/
theorem C10_pattern_of_digit (b b' v v' : Int) (m m' : Machine) (k k' : Nat)
    (hv0 : 0 ≤ v) (hv1 : v ≤ 9999) (hw0 : 0 ≤ v') (hw1 : v' ≤ 9999) (hk : k < 4) (hk' : k' < 4)
    (hd : v / 10 ^ k % 10 = v' / 10 ^ k' % 10) :
    (ssd.getD 0 [] = [1,1,1,1,1,1,0] ∧ ssd.getD 8 [] = [1,1,1,1,1,1,1] ∧
      ssd.getD 1 [] = [0,1,1,0,0,0,0]) ∧
    (pattern 0 = [LOW, LOW, LOW, LOW, LOW, LOW, HIGH] ∧
      pattern 8 = [LOW, LOW, LOW, LOW, LOW, LOW, LOW] ∧
      pattern 1 = [HIGH, LOW, LOW, HIGH, HIGH, HIGH, HIGH]) ∧
    ((held b v m).get? k).map segLevels = some (pattern (v / 10 ^ k % 10).toNat) ∧
    ((held b v m).get? k).map segLevels = ((held b' v' m').get? k').map segLevels := by
  have _ := hv1
  have _ := hw1
  refine ⟨by decide, by decide, held_segLevels b v m hv0 k hk, ?_⟩
  rw [held_segLevels b v m hv0 k hk, held_segLevels b' v' m' hw0 k' hk', hd]

/-- C10, for the digit 8 of 1800 (block 0, third settle delay) and of 98 (block 2, first
settle delay), from two different machine states. -/
theorem C10_pattern_of_digit_witness :
    (0 : Int) ≤ 1800 ∧ (1800 : Int) ≤ 9999 ∧ (0 : Int) ≤ 98 ∧ (98 : Int) ≤ 9999 ∧ 2 < 4 ∧ 0 < 4 ∧
    (1800 : Int) / 10 ^ 2 % 10 = (98 : Int) / 10 ^ 0 % 10 ∧
    ((held 0 1800 afterSetup).get? 2).map segLevels = ((held 2 98 idle).get? 0).map segLevels :=
  ⟨by decide, by decide, by decide, by decide, by decide, by decide, by decide,
    (C10_pattern_of_digit 0 2 1800 98 afterSetup idle 2 0 (by decide) (by decide) (by decide)
      (by decide) (by decide) (by decide) (by decide)).2.2.2⟩

/-- C3: blanking precedes selection change. In the operations of `lcd_write(block, value)`
there are 4 passes of 28 operations, one per digit position (`n = 0..3`, loop variable
`l = 3 - n`). Each pass begins with the 7 writes of HIGH to the segment pins
`SEG_OFFSET+0 .. SEG_OFFSET+6`; the next 12 operations are the writes of its `lcd_select`
call to the select pins, so no segment pin is written until that call has finished; and
every write to a select pin happens with all 7 segment pins HIGH, before and after it. -/
theorem C3_blanking_precedes_selection (block value : Int) (m : Machine) :
    (performed m (lcd_write block value m)).length = 4 * 28 ∧
    (∀ n, n < 4 → ∃ lcd : Int,
      (0 ≤ block → block ≤ 2 → lcd = 4 * block + (3 - n : Nat)) ∧
      (∀ j, j < 7 → (performed m (lcd_write block value m)).get? (28 * n + j) =
        some (Op.write (SEG_OFFSET + j) HIGH)) ∧
      (∀ i, i < 12 → (performed m (lcd_write block value m)).get? (28 * n + 7 + i) =
        some (Op.write (lcd_offset.getD i 0) (if (i : Int) = lcd then LOW else HIGH)))) ∧
    (∀ k pin level, (performed m (lcd_write block value m)).get? k = some (Op.write pin level) →
      pin ∈ select_pins →
      segsHigh (pinsAfter m.pins (performed m (lcd_write block value m)) k) ∧
      segsHigh (pinsAfter m.pins (performed m (lcd_write block value m)) (k + 1))) := by
  rw [lcd_write_eq_emit, performed_emit]
  refine ⟨?_, ?_, ?_⟩
  · simp [writeOps, writeOpsFrom, passOps_length]
  · intro n hn
    obtain ⟨r', rest, hd⟩ := writeOps_pass_head m.stray block value n hn
    have hg : ∀ i, (writeOps m.stray block value).get? (28 * n + i) =
        (passOps m.stray block (3 - n) r' ++ rest).get? i := by
      intro i
      rw [← hd, List.get?_eq_getElem?, List.get?_eq_getElem?, List.getElem?_drop]
    refine ⟨wrapInt (wrapInt (block * 4) + ((3 - n : Nat) : Int)), ?_, ?_, ?_⟩
    · intro h0 h2
      unfold wrapInt
      omega
    · intro j hj
      rw [hg]
      exact pass_blank_get _ _ _ _ _ j hj
    · intro i hi
      rw [Nat.add_assoc, hg]
      exact pass_select_get _ _ _ _ _ i hi
  · intro k pin level hk hpin
    have h := before_get _ _ _ (blanked_writeFrom m.stray block 4 value m.pins) k _ hk
    rw [pinsAfter_succ _ _ k _ hk]
    exact h (fun hoff => hoff hpin)

set_option maxRecDepth 100000 in
/-- C3, at the 38th operation of `lcd_write(0, 0)` started with every pin HIGH: pin 3 is
written LOW while pin 2 is still LOW, with all 7 segment pins HIGH before and after. -/
theorem C3_blanking_precedes_selection_witness :
    (performed idle (lcd_write 0 0 idle)).get? 37 = some (Op.write 3 LOW) ∧
    3 ∈ select_pins ∧
    segsHigh (pinsAfter idle.pins (performed idle (lcd_write 0 0 idle)) 37) ∧
    segsHigh (pinsAfter idle.pins (performed idle (lcd_write 0 0 idle)) 38) :=
  ⟨by decide, by decide,
    (C3_blanking_precedes_selection 0 0 idle).2.2 37 3 LOW (by decide) (by decide)⟩

/-! ## Frame and indicator: lemmas -/

theorem replay_offPin (q : Nat) (p : Pins) (ops : List Op) (h : ∀ op ∈ ops, offPin q op) :
    replay p ops q = p q := by
  induction ops generalizing p with
  | nil => rfl
  | cons op rest ih =>
    rw [replay, ih _ (fun o ho => h o (List.mem_cons_of_mem _ ho))]
    have h1 := h op (List.mem_cons_self _ _)
    cases op with
    | delay ms => rfl
    | write pin level =>
      have hne : q ≠ pin := fun e => h1 e.symm
      simp [step, hne]

theorem passOps_offIndicator (stray : Int → Int → Nat) (block_nr : Int) (l : Nat) (r : Int) :
    ∀ op ∈ passOps stray block_nr l r, offPin 37 op := by
  simp [passOps, blankOps, selectOps, segmentOps, range_seven, range_twelve, lcd_offset,
    offPin, SEG_OFFSET, SEG_DOT]

theorem writeOpsFrom_offIndicator (stray : Int → Int → Nat) (block_nr : Int) (n : Nat)
    (r : Int) : ∀ op ∈ writeOpsFrom stray block_nr n r, offPin 37 op := by
  induction n generalizing r with
  | zero => simp [writeOpsFrom]
  | succ n ih =>
    intro op hop
    unfold writeOpsFrom at hop
    rcases List.mem_append.mp hop with h | h
    · exact passOps_offIndicator stray block_nr n r op h
    · exact ih _ op h

theorem tmod_two_ne_zero (x : Int) : Int.tmod x 2 ≠ 0 ↔ x % 2 = 1 := by
  rw [Ne, ← Int.dvd_iff_tmod_eq_zero]
  omega

theorem ISR_frame (m : Machine) :
    (ISR m).pins = m.pins ∧ (ISR m).trace = m.trace ∧ (ISR m).stray = m.stray ∧
    (ISR m).TCNT2 = INIT_TIMER_COUNT := by
  simp only [ISR]
  split_ifs <;> exact ⟨rfl, rfl, rfl, rfl⟩

/-! ## Frame and indicator: claims -/

/-- C11: for every counter bank, the last operation of a `loop()` pass is the write to the
indicator pin 37, of HIGH if `rc[1]` is odd and of LOW if `rc[1]` is even, and no other
operation of the pass is a write to pin 37; so the pass leaves pin 37 at that level. -/
theorem C11_indicator_parity (m : Machine) :
    (Odd m.rc1 → (performed m (loop m)).getLast? = some (Op.write 37 HIGH) ∧
      (loop m).pins 37 = HIGH) ∧
    (Even m.rc1 → (performed m (loop m)).getLast? = some (Op.write 37 LOW) ∧
      (loop m).pins 37 = LOW) ∧
    (∀ op ∈ (performed m (loop m)).dropLast, offPin 37 op) ∧
    (performed m (loop m)).length = 3 * (4 * 28) + 1 := by
  rw [loop_eq_emit, performed_emit, emit_pins]
  have hform : loopOps m.stray m.rc0 m.rc1 m.rc2 =
      (writeOps m.stray 0 m.rc0 ++ (writeOps m.stray 1 m.rc1 ++ writeOps m.stray 2 m.rc2)) ++
        [Op.write 37 (if Int.tmod m.rc1 2 ≠ 0 then HIGH else LOW)] := by
    simp [loopOps]
  have hoff : ∀ op ∈ writeOps m.stray 0 m.rc0 ++
      (writeOps m.stray 1 m.rc1 ++ writeOps m.stray 2 m.rc2), offPin 37 op := by
    intro op hop
    simp only [List.mem_append, writeOps] at hop
    rcases hop with h | h | h
    · exact writeOpsFrom_offIndicator _ _ _ _ op h
    · exact writeOpsFrom_offIndicator _ _ _ _ op h
    · exact writeOpsFrom_offIndicator _ _ _ _ op h
  rw [hform]
  refine ⟨fun ho => ?_, fun he => ?_, ?_, ?_⟩
  · have h1 : Int.tmod m.rc1 2 ≠ 0 := (tmod_two_ne_zero _).mpr (Int.odd_iff.mp ho)
    rw [if_pos h1, replay_append]
    exact ⟨by simp, by simp [replay, step]⟩
  · have h1 : ¬ Int.tmod m.rc1 2 ≠ 0 := by
      rw [tmod_two_ne_zero]
      have := Int.even_iff.mp he
      omega
    rw [if_neg h1, replay_append]
    exact ⟨by simp, by simp [replay, step]⟩
  · rw [List.dropLast_concat]
    exact hoff
  · simp [writeOps, writeOpsFrom, passOps_length]

/-- C11, for the banks `[0, 7, 0, 0]` (odd) and `[0, 8, 0, 0]` (even). -/
theorem C11_indicator_parity_witness :
    (loop (withBank 0 7 0 0)).pins 37 = HIGH ∧ (loop (withBank 0 8 0 0)).pins 37 = LOW :=
  ⟨((C11_indicator_parity (withBank 0 7 0 0)).1 (by decide)).2,
    ((C11_indicator_parity (withBank 0 8 0 0)).2.1 (by decide)).2⟩

/-- C12: the scanner never mutates the counter bank. For every counter bank and pin state,
`lcd_write(block, value)`, in particular `lcd_write(block, rc[block])`, and a whole `loop()`
pass leave `rc[0]`, `rc[1]`, `rc[2]`, `rc[3]` unchanged: the division `r /= 10` acts on the
local copy of the value only. -/
theorem C12_scanner_keeps_bank (m : Machine) :
    (∀ block value : Int,
      (lcd_write block value m).rc0 = m.rc0 ∧ (lcd_write block value m).rc1 = m.rc1 ∧
      (lcd_write block value m).rc2 = m.rc2 ∧ (lcd_write block value m).rc3 = m.rc3) ∧
    ((lcd_write 0 m.rc0 m).rc0 = m.rc0 ∧ (lcd_write 1 m.rc1 m).rc1 = m.rc1 ∧
      (lcd_write 2 m.rc2 m).rc2 = m.rc2) ∧
    ((loop m).rc0 = m.rc0 ∧ (loop m).rc1 = m.rc1 ∧ (loop m).rc2 = m.rc2 ∧
      (loop m).rc3 = m.rc3) := by
  refine ⟨fun block value => ?_, ?_, ?_⟩
  · rw [lcd_write_eq_emit]
    exact emit_rc _ _
  · simp only [lcd_write_eq_emit]
    exact ⟨(emit_rc _ _).1, (emit_rc _ _).2.1, (emit_rc _ _).2.2.1⟩
  · rw [loop_eq_emit]
    exact emit_rc _ _

/-- C13: the tick handler never touches the output lines. For every counter bank and pin
state one run of the timer handler performs no operation on the pins and leaves the level of
every pin (select, segment, dot and indicator pins among them) unchanged; it changes the
counter bank and re-arms the timer register only. -/
theorem C13_handler_keeps_pins (m : Machine) :
    performed m (ISR m) = [] ∧
    (∀ q, (ISR m).pins q = m.pins q) ∧
    (∀ q ∈ select_pins, (ISR m).pins q = m.pins q) ∧
    (∀ j, j < 7 → (ISR m).pins (SEG_OFFSET + j) = m.pins (SEG_OFFSET + j)) ∧
    (ISR m).pins SEG_DOT = m.pins SEG_DOT ∧ (ISR m).pins 37 = m.pins 37 ∧
    (ISR m).TCNT2 = INIT_TIMER_COUNT := by
  obtain ⟨hp, ht, -, hc⟩ := ISR_frame m
  refine ⟨?_, fun q => by rw [hp], fun q _ => by rw [hp], fun j _ => by rw [hp], by rw [hp],
    by rw [hp], hc⟩
  simp [performed, ht]

/-! ## Render sequences: lemmas -/

theorem ssd_read_inside (stray stray' : Int → Int → Nat) (i : Int) (h0 : 0 ≤ i) (h1 : i < 10)
    (j : Nat) (hj : j < 7) : ssd_read stray i (j : Int) = ssd_read stray' i (j : Int) := by
  have hc : 0 ≤ i ∧ i < 10 ∧ 0 ≤ (j : Int) ∧ (j : Int) < 7 := ⟨h0, h1, by omega, by omega⟩
  simp only [ssd_read, if_pos hc]

theorem segmentOps_inside (stray stray' : Int → Int → Nat) (i : Int) (h0 : 0 ≤ i)
    (h1 : i < 10) : segmentOps stray i = segmentOps stray' i := by
  unfold segmentOps
  apply List.map_congr_left
  intro j hj
  rw [ssd_read_inside stray stray' i h0 h1 j (by simpa using hj)]

theorem tmod_ten_range (r : Int) (hr : 0 ≤ r) :
    0 ≤ Int.tmod r 10 ∧ Int.tmod r 10 < 10 ∧ 0 ≤ Int.tdiv r 10 ∧ Int.tdiv r 10 ≤ r := by
  rw [Int.tmod_eq_emod hr (by decide), Int.tdiv_eq_ediv hr (by decide)]
  omega

theorem writeOpsFrom_inside (stray stray' : Int → Int → Nat) (block_nr : Int) (n : Nat)
    (r : Int) (hr : 0 ≤ r) :
    writeOpsFrom stray block_nr n r = writeOpsFrom stray' block_nr n r := by
  induction n generalizing r with
  | zero => rfl
  | succ n ih =>
    obtain ⟨a, b, c, -⟩ := tmod_ten_range r hr
    simp only [writeOpsFrom, passOps]
    rw [ih _ c, segmentOps_inside stray stray' _ a b]

theorem selected_congr (p q : Pins) (h : selectLevels p = selectLevels q) :
    selected p = selected q := by
  simp only [selectLevels, select_pins_eq, List.map, List.cons.injEq, and_true] at h
  obtain ⟨h1, h2, h3, h4, h5, h6, h7, h8, h9, h10, h11, h12⟩ := h
  simp [selected, select_pins_eq, List.filter, h1, h2, h3, h4, h5, h6, h7, h8, h9, h10, h11,
    h12]

theorem delaysOf_append (a b : List Op) : delaysOf (a ++ b) = delaysOf a ++ delaysOf b := by
  induction a with
  | nil => rfl
  | cons op rest ih =>
    cases op with
    | write pin level => simpa [delaysOf] using ih
    | delay ms => simpa [delaysOf] using ih

theorem delaysOf_pass (stray : Int → Int → Nat) (block_nr : Int) (l : Nat) (r : Int) :
    delaysOf (passOps stray block_nr l r) = [1] := by
  simp [passOps, blankOps, selectOps, segmentOps, range_seven, range_twelve, delaysOf]

theorem delaysOf_writeFrom (stray : Int → Int → Nat) (block_nr : Int) (n : Nat) (r : Int) :
    delaysOf (writeOpsFrom stray block_nr n r) = List.replicate n 1 := by
  induction n generalizing r with
  | zero => rfl
  | succ n ih =>
    rw [writeOpsFrom, delaysOf_append, delaysOf_pass, ih, List.replicate_succ]
    rfl

/-! ## Render sequences: claims -/

/-- C14: idempotence of render. For every block and value, calling `lcd_write(block, value)`
twice in succession performs the identical sequence of operations (pin writes and delays)
both times, and holds the same selected pin and segment levels at the corresponding settle
delays, regardless of the pin state left by the first call: the sequence is the same from
any machine state with the same memory, and for values from 0 on from any machine state. -/
theorem C14_render_idempotent (block value : Int) (m : Machine) :
    performed (lcd_write block value m) (lcd_write block value (lcd_write block value m)) =
      performed m (lcd_write block value m) ∧
    (held block value (lcd_write block value m)).map (fun p => (selected p, segLevels p)) =
      (held block value m).map (fun p => (selected p, segLevels p)) ∧
    (∀ m' : Machine, m'.stray = m.stray →
      performed m' (lcd_write block value m') = performed m (lcd_write block value m)) ∧
    (0 ≤ value → ∀ m' : Machine,
      performed m' (lcd_write block value m') = performed m (lcd_write block value m)) := by
  have hs : (lcd_write block value m).stray = m.stray := by
    rw [lcd_write_eq_emit, emit_stray]
  refine ⟨?_, ?_, ?_, ?_⟩
  · rw [lcd_write_eq_emit block value (lcd_write block value m), performed_emit, hs,
      lcd_write_eq_emit, performed_emit]
  · rw [held_eq, held_eq, hs]
    simp only [List.map, pass_rowLevels, List.cons.injEq, Prod.mk.injEq, and_true]
    refine ⟨?_, ?_, ?_, ?_⟩ <;> exact selected_congr _ _ (by rw [pass_select, pass_select])
  · intro m' h'
    rw [lcd_write_eq_emit, performed_emit, lcd_write_eq_emit, performed_emit, h']
  · intro hv m'
    rw [lcd_write_eq_emit, performed_emit, lcd_write_eq_emit, performed_emit]
    exact writeOpsFrom_inside _ _ _ _ _ hv

/-- C14, for `lcd_write(1, 2048)` from the state `setup()` leaves (all pins LOW) and from the
machine with every pin HIGH. -/
theorem C14_render_idempotent_witness :
    performed idle (lcd_write 1 2048 idle) = performed afterSetup (lcd_write 1 2048 afterSetup) :=
  (C14_render_idempotent 1 2048 afterSetup).2.2.2 (by decide) idle

/-- C16: one `loop()` pass requests exactly 12 settle delays of 1 ms each, 4 per `lcd_write`
call (one per digit position of the three displayed blocks), 12 ms of settle delay in all,
which is within the 20 ms a pass may take at 50 full cycles per second. -/
theorem C16_settle_delays (m : Machine) :
    delaysOf (performed m (loop m)) = List.replicate 12 1 ∧
    (∀ block value : Int, delaysOf (performed m (lcd_write block value m)) = [1, 1, 1, 1]) ∧
    (delaysOf (performed m (loop m))).length = 3 * 4 ∧
    (delaysOf (performed m (loop m))).sum = 12 ∧
    (delaysOf (performed m (loop m))).sum ≤ 1000 / 50 := by
  have h : delaysOf (performed m (loop m)) = List.replicate 12 1 := by
    rw [loop_eq_emit, performed_emit]
    simp only [loopOps, writeOps, delaysOf_append, delaysOf_writeFrom]
    rfl
  refine ⟨h, fun block value => ?_, ?_, ?_, ?_⟩
  · rw [lcd_write_eq_emit, performed_emit, writeOps, delaysOf_writeFrom]
    rfl
  · rw [h]; rfl
  · rw [h]; rfl
  · rw [h]; decide

/-- C18: the segment encoding table is injective. For all digits `a ≠ b` in 0..9 the rows
`ssd[a]` and `ssd[b]` differ, and so do the segment levels driven for them; hence the
pattern on the segment pins determines the digit. -/
theorem C18_table_injective (a b : Nat) (ha : a < 10) (hb : b < 10) (hab : a ≠ b) :
    ssd.getD a [] ≠ ssd.getD b [] ∧ pattern a ≠ pattern b ∧
    (∀ p : Pins, segLevels p = pattern a → shownDigit p = some a ∧ shownDigit p ≠ some b) := by
  refine ⟨?_, ?_, fun p hp => ?_⟩
  · interval_cases a <;> interval_cases b <;> first | exact absurd rfl hab | decide
  · interval_cases a <;> interval_cases b <;> first | exact absurd rfl hab | decide
  · rw [shownDigit_pattern p a ha hp]
    exact ⟨rfl, fun h => hab (Option.some.inj h)⟩

/-- C18, for the digits 3 and 9, whose rows differ in one segment only. -/
theorem C18_table_injective_witness :
    3 < 10 ∧ 9 < 10 ∧ 3 ≠ 9 ∧ ssd.getD 3 [] ≠ ssd.getD 9 [] ∧ pattern 3 ≠ pattern 9 :=
  ⟨by decide, by decide, by decide,
    (C18_table_injective 3 9 (by decide) (by decide) (by decide)).1,
    (C18_table_injective 3 9 (by decide) (by decide) (by decide)).2.1⟩

/-! ## Table accesses: lemmas -/

theorem selectOps_offPin (lcd : Int) (q : Nat)
    (hq : (SEG_OFFSET ≤ q ∧ q ≤ SEG_OFFSET + 6) ∨ q = SEG_DOT ∨ q = 37) :
    ∀ op ∈ selectOps lcd, offPin q op := by
  simp only [SEG_OFFSET, SEG_DOT] at hq
  simp [selectOps, range_twelve, lcd_offset, offPin]
  omega

theorem writeOpsFrom_access (stray : Int → Int → Nat) (block_nr : Int) (n : Nat) (r : Int) :
    writeOpsFrom stray block_nr n r =
      accessOps stray (select_args block_nr n) (ssd_reads n r) := by
  induction n generalizing r with
  | zero => rfl
  | succ n ih =>
    have hl : ((List.range 7).map (fun (j : Nat) => (Int.tmod r 10, (j : Int)))).length = 7 := by
      simp
    simp only [writeOpsFrom, select_args, ssd_reads, accessOps]
    rw [List.take_left' hl, List.drop_left' hl, ← ih]
    simp [passOps, segmentOps, range_seven]

theorem ssd_reads_inside (n : Nat) (r : Int) (hr : 0 ≤ r) :
    ∀ ij ∈ ssd_reads n r, 0 ≤ ij.1 ∧ ij.1 ≤ 9 ∧ 0 ≤ ij.2 ∧ ij.2 ≤ 6 := by
  induction n generalizing r with
  | zero => simp [ssd_reads]
  | succ n ih =>
    obtain ⟨a, b, c, -⟩ := tmod_ten_range r hr
    intro ij hij
    unfold ssd_reads at hij
    rcases List.mem_append.mp hij with h | h
    · obtain ⟨j, hj, rfl⟩ := List.mem_map.mp h
      have hj7 : j < 7 := by simpa using hj
      exact ⟨a, by omega, by simp, by simp; omega⟩
    · exact ih _ c ij h

theorem select_args_inside (b : Int) (hb0 : 0 ≤ b) (hb2 : b ≤ 2) (n : Nat) (hn : n ≤ 4) :
    ∀ a ∈ select_args b n, 0 ≤ a ∧ a ≤ 11 := by
  induction n with
  | zero => simp [select_args]
  | succ n ih =>
    intro a ha
    unfold select_args at ha
    rcases List.mem_cons.mp ha with h | h
    · rw [h]
      unfold wrapInt
      omega
    · exact ih (by omega) a h

/-! ## Table accesses: claims -/

/-- C19: for every argument the sentinel-terminated loop of `lcd_select` ends at the
sentinel, after writing exactly the 12 pins `lcd_offset[0..11]`, each exactly once and in
table order. The 12 select pin numbers are nonzero and pairwise distinct, entry 12 is the
sentinel 0, and no select pin is a segment pin (6..12), the dot pin 13 or the indicator pin
37; so `lcd_select` never changes a segment, dot or indicator line. -/
theorem C19_select_loop (lcd : Int) (m : Machine) :
    writtenPins (performed m (lcd_select lcd m)) = lcd_offset.take 12 ∧
    (performed m (lcd_select lcd m)).length = 12 ∧
    (∀ i, i < 12 → (performed m (lcd_select lcd m)).get? i =
      some (Op.write (lcd_offset.getD i 0) (if (i : Int) = lcd then LOW else HIGH))) ∧
    (lcd_offset.length = 13 ∧ lcd_offset.getD 12 1 = 0) ∧
    (∀ pin ∈ lcd_offset.take 12, pin ≠ 0) ∧ (lcd_offset.take 12).Nodup ∧
    (∀ pin ∈ lcd_offset.take 12,
      ¬ (SEG_OFFSET ≤ pin ∧ pin ≤ SEG_OFFSET + 6) ∧ pin ≠ SEG_DOT ∧ pin ≠ 37) ∧
    (∀ q, (SEG_OFFSET ≤ q ∧ q ≤ SEG_OFFSET + 6) ∨ q = SEG_DOT ∨ q = 37 →
      (lcd_select lcd m).pins q = m.pins q) := by
  rw [lcd_select_eq_emit, performed_emit, emit_pins]
  refine ⟨?_, ?_, ?_, by decide, by decide, by decide, by decide, ?_⟩
  · simp [selectOps, range_twelve, lcd_offset, writtenPins]
  · simp [selectOps]
  · intro i hi
    interval_cases i <;> simp [selectOps, range_twelve]
  · intro q hq
    exact replay_offPin q m.pins _ (selectOps_offPin lcd q hq)

/-- C19, for `lcd_select(3)` from the state `setup()` leaves: the dot pin keeps its level. -/
theorem C19_select_loop_witness :
    (lcd_select 3 afterSetup).pins 13 = afterSetup.pins 13 :=
  (C19_select_loop 3 afterSetup).2.2.2.2.2.2.2 13 (by decide)

theorem tmod_ten_neg (r : Int) (hr : r < 0) (hd : r % 10 ≠ 0) : Int.tmod r 10 < 0 := by
  obtain ⟨y, rfl⟩ : ∃ y, r = -y := ⟨-r, by omega⟩
  rw [Int.tmod_def, Int.neg_tdiv, Int.tdiv_eq_ediv (by omega) (by decide)]
  omega

theorem loopOps_inside (stray stray' : Int → Int → Nat) (a b c : Int) (ha : 0 ≤ a)
    (hb : 0 ≤ b) (hc : 0 ≤ c) : loopOps stray a b c = loopOps stray' a b c := by
  unfold loopOps writeOps
  rw [writeOpsFrom_inside stray stray' 0 4 a ha, writeOpsFrom_inside stray stray' 1 4 b hb,
    writeOpsFrom_inside stray stray' 2 4 c hc]

theorem reachable_range (m : Machine) (hm : bankIs m 0 0 0 0) (k : Nat) :
    inBlockRange (ISR^[k] m).rc0 ∧ inBlockRange (ISR^[k] m).rc1 ∧
    inBlockRange (ISR^[k] m).rc2 := by
  obtain ⟨a, b, c⟩ := ISR_iterate_counts m hm k
  unfold inBlockRange
  rw [a, b, c]
  omega

/-- C17: for every counter bank reachable from `[0,0,0,0]` by any number of ticks, every
table access made by a `loop()` pass is in bounds. The pass consists of the passes over the
select arguments `select_args` and the table reads `ssd_reads` of its three `lcd_write`
calls; every read `ssd[i][j]` has `i` in 0..9 and `j` in 0..6 and every argument
`block_nr*4 + l` of `lcd_select` is in 0..11, so the operations of the pass do not depend on
memory outside the tables. A negative value that is not a multiple of 10, such as -1, makes
the first read of `lcd_write` use a negative row index. -/
theorem C17_accesses_in_bounds (m : Machine) (hm : bankIs m 0 0 0 0) (k : Nat) :
    performed (ISR^[k] m) (loop (ISR^[k] m)) =
      accessOps (ISR^[k] m).stray (select_args 0 4) (ssd_reads 4 (ISR^[k] m).rc0) ++
        (accessOps (ISR^[k] m).stray (select_args 1 4) (ssd_reads 4 (ISR^[k] m).rc1) ++
          (accessOps (ISR^[k] m).stray (select_args 2 4) (ssd_reads 4 (ISR^[k] m).rc2) ++
            [Op.write 37 (if Int.tmod (ISR^[k] m).rc1 2 ≠ 0 then HIGH else LOW)])) ∧
    (∀ ij ∈ ssd_reads 4 (ISR^[k] m).rc0 ++ ssd_reads 4 (ISR^[k] m).rc1 ++
        ssd_reads 4 (ISR^[k] m).rc2, 0 ≤ ij.1 ∧ ij.1 ≤ 9 ∧ 0 ≤ ij.2 ∧ ij.2 ≤ 6) ∧
    (∀ a ∈ select_args 0 4 ++ select_args 1 4 ++ select_args 2 4, 0 ≤ a ∧ a ≤ 11) ∧
    (∀ n : Machine, n.rc0 = (ISR^[k] m).rc0 → n.rc1 = (ISR^[k] m).rc1 →
      n.rc2 = (ISR^[k] m).rc2 →
      performed n (loop n) = performed (ISR^[k] m) (loop (ISR^[k] m))) ∧
    ((ssd_reads 4 (-1)).head? = some (-1, 0) ∧
      ∀ r : Int, r < 0 → r % 10 ≠ 0 → ∃ i, (ssd_reads 4 r).head? = some (i, 0) ∧ i < 0) := by
  obtain ⟨h0, h1, h2⟩ := reachable_range m hm k
  unfold inBlockRange at h0 h1 h2
  refine ⟨?_, ?_, ?_, ?_, ?_, ?_⟩
  · rw [loop_eq_emit, performed_emit]
    simp only [loopOps, writeOps, writeOpsFrom_access]
  · intro ij hij
    simp only [List.mem_append] at hij
    rcases hij with (h | h) | h
    · exact ssd_reads_inside 4 _ h0.1 ij h
    · exact ssd_reads_inside 4 _ h1.1 ij h
    · exact ssd_reads_inside 4 _ h2.1 ij h
  · intro a ha
    simp only [List.mem_append] at ha
    rcases ha with (h | h) | h
    · exact select_args_inside 0 (by decide) (by decide) 4 le_rfl a h
    · exact select_args_inside 1 (by decide) (by decide) 4 le_rfl a h
    · exact select_args_inside 2 (by decide) (by decide) 4 le_rfl a h
  · intro n e0 e1 e2
    rw [loop_eq_emit, performed_emit, loop_eq_emit, performed_emit, e0, e1, e2]
    exact loopOps_inside _ _ _ _ _ h0.1 h1.1 h2.1
  · decide
  · intro r hr hd
    exact ⟨Int.tmod r 10, by simp [ssd_reads, range_seven], tmod_ten_neg r hr hd⟩

/-- C17, for the bank reached by 123456789 ticks from the state `setup()` leaves. -/
theorem C17_accesses_in_bounds_witness :
    bankIs afterSetup 0 0 0 0 ∧
    (∀ ij ∈ ssd_reads 4 (ISR^[123456789] afterSetup).rc0 ++
        ssd_reads 4 (ISR^[123456789] afterSetup).rc1 ++
        ssd_reads 4 (ISR^[123456789] afterSetup).rc2,
      0 ≤ ij.1 ∧ ij.1 ≤ 9 ∧ 0 ≤ ij.2 ∧ ij.2 ≤ 6) ∧
    ∀ a ∈ select_args 0 4 ++ select_args 1 4 ++ select_args 2 4, 0 ≤ a ∧ a ≤ 11 :=
  ⟨by decide, (C17_accesses_in_bounds afterSetup (by decide) 123456789).2.1,
    (C17_accesses_in_bounds afterSetup (by decide) 123456789).2.2.1⟩

end Aquarius
